import Mathlib

/-!
Verification development for the unifi-scraper repository.

The Python sources are shallowly embedded: pure helper functions become Lean
functions over `String`/`List`; the browser, spreadsheet client and messaging
clients are modelled as explicit environments; the per-row scraping loop of
`scrape_orders.scrape_orders_month` becomes a fold over the rows the loop
reads.  Machine details that the claims depend on — CPython's `_strptime`
directive regexes (with their alternation order and backtracking), the
full-match check, the `datetime` constructor's range validation, and glibc
`strftime`'s unpadded `%Y` — are reproduced at the character level.
-/

namespace UnifiScraper

/-- Python `datetime` values as the scraper uses them (naive timestamps). -/
structure PyDateTime where
  year : Nat
  month : Nat
  day : Nat
  hour : Nat
  minute : Nat
  second : Nat
deriving DecidableEq, Repr

/-- Proleptic-Gregorian leap-year rule used by Python `datetime`. -/
def isLeapYear (y : Nat) : Bool :=
  y % 4 == 0 && (y % 100 != 0 || y % 400 == 0)

def daysInMonth (y m : Nat) : Nat :=
  if m = 2 then (if isLeapYear y then 29 else 28)
  else if m = 4 ∨ m = 6 ∨ m = 9 ∨ m = 11 then 30
  else 31

/-- Range checks done by the `datetime` constructor (`MINYEAR = 1`,
`MAXYEAR = 9999`, day must fit the month, seconds `0..59`). `strptime`
raises `ValueError` exactly when these fail after a regex match. -/
def validDateTime (dt : PyDateTime) : Bool :=
  1 ≤ dt.year && dt.year ≤ 9999 && 1 ≤ dt.month && dt.month ≤ 12 &&
  1 ≤ dt.day && dt.day ≤ daysInMonth dt.year dt.month &&
  dt.hour ≤ 23 && dt.minute ≤ 59 && dt.second ≤ 59

def isDigitC (c : Char) : Bool := '0' ≤ c && c ≤ '9'

def dval (c : Char) : Nat := c.toNat - '0'.toNat

/-- Python `\s` over ASCII, as used both by `str.strip()` and by the `\s+`
that `_strptime` substitutes for whitespace in a format string. -/
def isSpaceC (c : Char) : Bool :=
  c = ' ' || c = '\t' || c = '\n' || c = '\r' || c = '\x0b' || c = '\x0c'

/-- One `strptime` directive (or literal / whitespace run) of the formats the
scraper uses. -/
inductive Tok where
  | dd          -- %d
  | mm          -- %m
  | HH          -- %H
  | MM          -- %M
  | SS          -- %S
  | YY          -- %Y
  | mon         -- %b
  | lit (c : Char)
  | ws          -- \s+ (from whitespace in the format)
deriving DecidableEq, Repr

/-- `%d` regex `3[0-1]|[1-2]\d|0[1-9]|[1-9]| [1-9]`: candidate matches in
alternation order (the regex engine backtracks through them in this order). -/
def candD (s : List Char) : List (Nat × List Char) :=
  (match s with
   | '3' :: c :: r => if c = '0' || c = '1' then [(30 + dval c, r)] else []
   | _ => []) ++
  (match s with
   | c1 :: c2 :: r =>
     if (c1 = '1' || c1 = '2') && isDigitC c2 then [(10 * dval c1 + dval c2, r)] else []
   | _ => []) ++
  (match s with
   | '0' :: c :: r => if '1' ≤ c && c ≤ '9' then [(dval c, r)] else []
   | _ => []) ++
  (match s with
   | c :: r => if '1' ≤ c && c ≤ '9' then [(dval c, r)] else []
   | _ => []) ++
  (match s with
   | ' ' :: c :: r => if '1' ≤ c && c ≤ '9' then [(dval c, r)] else []
   | _ => [])

/-- `%m` regex `1[0-2]|0[1-9]|[1-9]`. -/
def candM (s : List Char) : List (Nat × List Char) :=
  (match s with
   | '1' :: c :: r => if c = '0' || c = '1' || c = '2' then [(10 + dval c, r)] else []
   | _ => []) ++
  (match s with
   | '0' :: c :: r => if '1' ≤ c && c ≤ '9' then [(dval c, r)] else []
   | _ => []) ++
  (match s with
   | c :: r => if '1' ≤ c && c ≤ '9' then [(dval c, r)] else []
   | _ => [])

/-- `%H` regex `2[0-3]|[0-1]\d|\d`. -/
def candH (s : List Char) : List (Nat × List Char) :=
  (match s with
   | '2' :: c :: r => if '0' ≤ c && c ≤ '3' then [(20 + dval c, r)] else []
   | _ => []) ++
  (match s with
   | c1 :: c2 :: r =>
     if (c1 = '0' || c1 = '1') && isDigitC c2 then [(10 * dval c1 + dval c2, r)] else []
   | _ => []) ++
  (match s with
   | c :: r => if isDigitC c then [(dval c, r)] else []
   | _ => [])

/-- `%M` regex `[0-5]\d|\d`. -/
def candMin (s : List Char) : List (Nat × List Char) :=
  (match s with
   | c1 :: c2 :: r =>
     if ('0' ≤ c1 && c1 ≤ '5') && isDigitC c2 then [(10 * dval c1 + dval c2, r)] else []
   | _ => []) ++
  (match s with
   | c :: r => if isDigitC c then [(dval c, r)] else []
   | _ => [])

/-- `%S` regex `6[0-1]|[0-5]\d|\d` (leap seconds match the regex but are then
rejected by the `datetime` constructor). -/
def candSec (s : List Char) : List (Nat × List Char) :=
  (match s with
   | '6' :: c :: r => if c = '0' || c = '1' then [(60 + dval c, r)] else []
   | _ => []) ++
  (match s with
   | c1 :: c2 :: r =>
     if ('0' ≤ c1 && c1 ≤ '5') && isDigitC c2 then [(10 * dval c1 + dval c2, r)] else []
   | _ => []) ++
  (match s with
   | c :: r => if isDigitC c then [(dval c, r)] else []
   | _ => [])

/-- `%Y` regex `\d\d\d\d`: exactly four digits. -/
def candY (s : List Char) : List (Nat × List Char) :=
  match s with
  | a :: b :: c :: e :: r =>
    if isDigitC a && isDigitC b && isDigitC c && isDigitC e then
      [(1000 * dval a + 100 * dval b + 10 * dval c + dval e, r)]
    else []
  | _ => []

/-- Lower-case abbreviated month names, the `%b` regex alternatives
(matched case-insensitively in the C locale). -/
def monthNamesLower : List String :=
  ["jan", "feb", "mar", "apr", "may", "jun", "jul", "aug", "sep", "oct", "nov", "dec"]

def monthIdx (a b c : Char) : Option Nat :=
  (monthNamesLower.findIdx? (fun nm => nm.toList = [a.toLower, b.toLower, c.toLower])).map (· + 1)

/-- `%b`: one of twelve three-letter names, case-insensitive. -/
def candB (s : List Char) : List (Nat × List Char) :=
  match s with
  | a :: b :: c :: r =>
    (match monthIdx a b c with
     | some m => [(m, r)]
     | none => [])
  | _ => []

/-- `\s+`: one or more whitespace characters, greedy (longest first), with
backtracking to shorter runs. -/
def candWS : List Char → List (List Char)
  | [] => []
  | c :: r => if isSpaceC c then candWS r ++ [r] else []

def cand : Tok → List Char → List (Nat × List Char)
  | .dd, s => candD s
  | .mm, s => candM s
  | .HH, s => candH s
  | .MM, s => candMin s
  | .SS, s => candSec s
  | .YY, s => candY s
  | .mon, s => candB s
  | .lit c, s =>
    (match s with
     | c' :: r => if c' = c then [(0, r)] else []
     | _ => [])
  | .ws, s => (candWS s).map (fun r => (0, r))

/-- Fields collected during a match, with `_strptime`'s defaults
(year 1900, month 1, day 1, midnight). -/
structure ParseAcc where
  y : Nat
  mo : Nat
  d : Nat
  h : Nat
  mi : Nat
  s : Nat
deriving DecidableEq, Repr

def accInit : ParseAcc := ⟨1900, 1, 1, 0, 0, 0⟩

def updAcc (acc : ParseAcc) (t : Tok) (v : Nat) : ParseAcc :=
  match t with
  | .YY => { acc with y := v }
  | .mm => { acc with mo := v }
  | .mon => { acc with mo := v }
  | .dd => { acc with d := v }
  | .HH => { acc with h := v }
  | .MM => { acc with mi := v }
  | .SS => { acc with s := v }
  | _ => acc

/-- All ways a token sequence can match a value prefix of the input, in the
backtracking engine's preference order; each result carries the unconsumed
rest.  `re.match` returns the head of this list. -/
def matchToks : List Tok → List Char → ParseAcc → List (ParseAcc × List Char)
  | [], s, acc => [(acc, s)]
  | t :: ts, s, acc => (cand t s).flatMap (fun vr => matchToks ts vr.2 (updAcc acc t vr.1))

/-- `datetime.strptime`: take the regex engine's preferred match, require it
to consume the whole string (`unconverted data remains` otherwise), then run
the `datetime` constructor's validation. -/
def strptime (toks : List Tok) (s : String) : Option PyDateTime :=
  match matchToks toks s.toList accInit with
  | [] => none
  | (acc, rest) :: _ =>
    if rest.isEmpty then
      let dt : PyDateTime := ⟨acc.y, acc.mo, acc.d, acc.h, acc.mi, acc.s⟩
      if validDateTime dt then some dt else none
    else none

def fmtYmdHMS : List Tok := [.YY, .mm, .dd, .HH, .MM, .SS]

def fmtDbYHMS : List Tok :=
  [.dd, .ws, .mon, .ws, .YY, .ws, .HH, .lit ':', .MM, .lit ':', .SS]

def fmtDbYHM : List Tok :=
  [.dd, .ws, .mon, .ws, .YY, .ws, .HH, .lit ':', .MM]

def fmtDmYHMS : List Tok :=
  [.dd, .lit '-', .mm, .lit '-', .YY, .ws, .HH, .lit ':', .MM, .lit ':', .SS]

def fmtDmYHM : List Tok :=
  [.dd, .lit '-', .mm, .lit '-', .YY, .ws, .HH, .lit ':', .MM]

/-- `%d` / `%H` / `%M` rendering: zero-padded to two digits. -/
def pad2 (n : Nat) : List Char :=
  if n < 10 then ['0', Nat.digitChar n] else [Nat.digitChar (n / 10), Nat.digitChar (n % 10)]

def monthAbbrevs : List String :=
  ["Jan", "Feb", "Mar", "Apr", "May", "Jun", "Jul", "Aug", "Sep", "Oct", "Nov", "Dec"]

def monthChars (m : Nat) : List Char := (monthAbbrevs.getD (m - 1) "").toList

/-- glibc `strftime` `%Y`: plain decimal, NOT zero-padded (year 999 renders
as "999").  The scraper runs on CPython/Linux where `datetime.strftime`
delegates to the platform `strftime`. -/
def yearChars (y : Nat) : List Char :=
  if y < 10 then [Nat.digitChar y]
  else if y < 100 then [Nat.digitChar (y / 10), Nat.digitChar (y % 10)]
  else if y < 1000 then
    [Nat.digitChar (y / 100), Nat.digitChar (y / 10 % 10), Nat.digitChar (y % 10)]
  else if y < 10000 then
    [Nat.digitChar (y / 1000), Nat.digitChar (y / 100 % 10),
     Nat.digitChar (y / 10 % 10), Nat.digitChar (y % 10)]
  else Nat.toDigits 10 y

/-- `dt.strftime("%d %b %Y %H:%M")`. -/
def renderDbYHM (dt : PyDateTime) : List Char :=
  pad2 dt.day ++ [' '] ++ monthChars dt.month ++ [' '] ++ yearChars dt.year ++
    [' '] ++ pad2 dt.hour ++ [':'] ++ pad2 dt.minute

/-- `scrape_orders.format_datetime`: turn a 14-character `%Y%m%d%H%M%S`
timestamp into `"%d %b %Y %H:%M"`; empty/over- or under-length input gives
`""`; a 14-character string that fails to parse is returned unchanged. -/
def format_datetime (s : String) : String :=
  if s = "" || s.length ≠ 14 then ""
  else
    match strptime fmtYmdHMS s with
    | some dt => String.mk (renderDbYHM dt)
    | none => s

def firstParse : List (List Tok) → String → Option PyDateTime
  | [], _ => none
  | f :: fs, s =>
    match strptime f s with
    | some dt => some dt
    | none => firstParse fs s

def uiFormats : List (List Tok) := [fmtDbYHMS, fmtDbYHM, fmtDmYHMS, fmtDmYHM]

/-- `scrape_orders.parse_ui_date`: try the four UI formats in order. -/
def parse_ui_date (s : String) : Option PyDateTime :=
  if s = "" then none else firstParse uiFormats s

/-- Python `str.strip()` (over the ASCII whitespace the data contains). -/
def pyStrip (s : String) : String :=
  String.mk (((s.toList.dropWhile isSpaceC).reverse.dropWhile isSpaceC).reverse)

def stdFormats : List (List Tok) := [fmtDbYHMS, fmtDbYHM, fmtDmYHMS, fmtDmYHM, fmtYmdHMS]

/-- `date_utils.standardize_date`: empty input gives `""`; otherwise the
input is stripped, the five accepted formats are tried in order and the
first parse is re-rendered as `"%d %b %Y %H:%M"`; if none parses the
stripped string is returned. -/
def standardize_date (s : String) : String :=
  if s = "" then ""
  else
    let t := pyStrip s
    match firstParse stdFormats t with
    | some dt => String.mk (renderDbYHM dt)
    | none => t

/-! ## `gsheets_writer.py`: worksheet model

A worksheet is its `get_all_values()` matrix: a list of rows, each a list of
cell strings, the header at position 0.  Sheet row numbers are 1-based. -/

def HEADERS : List String :=
  ["Order Number", "Order Status", "Created Date", "Updated Date", "Name", "Email",
   "Phone Number", "Appointment Date", "Address", "Package", "IC Number", "Creator",
   "Last Synced"]

/-- Python dict assignment `d[k] = v`: overwrite in place or append. -/
def dictInsert (k : String) (v : Nat) (d : List (String × Nat)) : List (String × Nat) :=
  if d.any (fun p => p.1 = k) then d.map (fun p => if p.1 = k then (k, v) else p)
  else d ++ [(k, v)]

def stripApos (s : String) : String := String.mk (s.toList.dropWhile (· = '\''))

def buildIndexAux : List (List String) → Nat → List (String × Nat) → List (String × Nat)
  | [], _, d => d
  | row :: rest, i, d =>
    let d' :=
      if row = [] then d
      else
        let key0 := pyStrip (row.headD "")
        if key0 = "" then d
        else dictInsert (stripApos key0) (i + 1) d
    buildIndexAux rest (i + 1) d'

/-- `gsheets_writer.build_index`: order number (stripped, legacy apostrophes
removed) to 1-based sheet row, skipping the header; later rows overwrite
earlier bindings as in a Python dict. -/
def build_index (ws : List (List String)) : List (String × Nat) :=
  buildIndexAux ws.tail 1 []

/-- `r.get(h, "")` for a row dict. -/
def dGet (r : List (String × String)) (k : String) : String :=
  match r.find? (fun p => p.1 = k) with
  | some p => p.2
  | none => ""

/-- `[str(r.get(h, "") or "") for h in HEADERS]`. -/
def rowValues (r : List (String × String)) : List String := HEADERS.map (dGet r)

/-- `values[0].strip().lstrip("'")`. -/
def upsertKey (vs : List String) : String := stripApos (pyStrip (vs.headD ""))

/-- One `batch_update` range `A{rowNum}:M{rowNum}`: overwrite the 13 schema
cells of that sheet row, keeping any cells beyond them. -/
def applyUpdate (ws : List (List String)) (rowNum : Nat) (vs : List String) :
    List (List String) :=
  match ws.get? (rowNum - 1) with
  | some old => ws.set (rowNum - 1) (vs ++ old.drop 13)
  | none => ws

/-- `gsheets_writer.upsert_rows`: split the batch into in-place updates
(keys already indexed) and appends, then apply updates followed by appends. -/
def upsert_rows (ws : List (List String)) (rows : List (List (String × String))) :
    List (List String) :=
  let index := build_index ws
  let split := rows.foldl
    (fun (acc : List (Nat × List String) × List (List String)) r =>
      let vs := rowValues r
      let key := upsertKey vs
      if key = "" then acc
      else
        match index.lookup key with
        | some rowNum => (acc.1 ++ [(rowNum, vs)], acc.2)
        | none => (acc.1, acc.2 ++ [vs]))
    ([], [])
  (split.1.foldl (fun w u => applyUpdate w u.1 u.2) ws) ++ split.2

/-- `parse_date_for_sort` inside `sort_tab_by_created_date`: sort key from
the Created Date cell (column index 2); empty, missing or unparsable cells
key to all-zero (which is strictly below every parsable date's key). -/
def parse_date_for_sort (row : List String) : List Nat :=
  if row.length ≤ 2 then [0, 0, 0, 0, 0, 0]
  else if row.getD 2 "" = "" then [0, 0, 0, 0, 0, 0]
  else
    match firstParse [fmtDbYHMS, fmtDbYHM] (pyStrip (row.getD 2 "")) with
    | some dt => [dt.year, dt.month, dt.day, dt.hour, dt.minute, dt.second]
    | none => [0, 0, 0, 0, 0, 0]

/-- Lexicographic order on sort keys (Python tuple comparison). -/
def keyLt : List Nat → List Nat → Bool
  | [], [] => false
  | [], _ :: _ => true
  | _ :: _, [] => false
  | a :: as, b :: bs => if a < b then true else if b < a then false else keyLt as bs

/-- Stable insert for descending order: an element goes after every earlier
element whose key is not smaller (Python `sorted` stability). -/
def insDesc (x : List String) : List (List String) → List (List String)
  | [] => [x]
  | y :: ys =>
    if keyLt (parse_date_for_sort x) (parse_date_for_sort y) then y :: insDesc x ys
    else x :: y :: ys

/-- `sorted(data_rows, key=parse_date_for_sort, reverse=True)`: stable,
descending by key. -/
def sortDesc : List (List String) → List (List String)
  | [] => []
  | x :: xs => insDesc x (sortDesc xs)

/-- `gsheets_writer.sort_tab_by_created_date` with `descending=True`: at most
one data row means no change; otherwise the header is kept first and the data
rows are rewritten in stable descending Created-Date order. -/
def sort_tab_by_created_date (ws : List (List String)) : List (List String) :=
  match ws with
  | [] => []
  | [h] => [h]
  | h :: rest => h :: sortDesc rest

/-! ## `scrape_orders.py`: the scraping loop

The browser and portal are modelled as an environment: `detail oid` is the
outcome of `fetch_order_json_via_new_tab(oid)` followed by the guard
`not isinstance(api_json, dict) or not api_json.get("data")` — `none` means
the bounded wait elapsed with no JSON captured for the order or a JSON whose
`data` field is missing/falsy, `some` carries the detail fields that the
normalization block (lines 774–938, not referenced by any claim) extracts
from the payload.  `nowIso` is `datetime.now().isoformat()`. -/

structure OrderDetail where
  name : String
  email : String
  phone : String
  appointment : String
  address : String
  package : String
  icNumber : String
  creator : String
deriving Repr, DecidableEq

structure ScrapeEnv where
  detail : String → Option OrderDetail
  nowIso : String

def isPrefixChars : List Char → List Char → Bool
  | [], _ => true
  | _ :: _, [] => false
  | a :: as, b :: bs => a = b && isPrefixChars as bs

def hasInfixChars (pat : List Char) : List Char → Bool
  | [] => isPrefixChars pat []
  | c :: rest => isPrefixChars pat (c :: rest) || hasInfixChars pat rest

/-- `"Batch" in text` (Python substring test). -/
def containsSubstr (s sub : String) : Bool := hasInfixChars sub.toList s.toList

def splitWSAux : List Char → List Char → List String
  | [], acc => if acc = [] then [] else [String.mk acc.reverse]
  | c :: r, acc =>
    if isSpaceC c then
      (if acc = [] then splitWSAux r [] else String.mk acc.reverse :: splitWSAux r [])
    else splitWSAux r (c :: acc)

/-- Python `str.split()`: split on whitespace runs, no empty fields. -/
def pySplitWS (s : String) : List String := splitWSAux s.toList []

/-- Order-id extraction from the first cell (lines 635–639). -/
def extract_order_id (txt : String) : String :=
  if containsSubstr txt "Batch" then (pySplitWS (pyStrip txt)).headD ""
  else pyStrip txt

/-- Row filter `order_id and len(order_id) >= 10 and order_id[0].isdigit()`. -/
def valid_order_id (oid : String) : Bool :=
  oid ≠ "" && oid.length ≥ 10 && isDigitC (oid.toList.headD ' ')

/-- The id a listing row contributes, `none` when the row is skipped before
the sync decision (no cells, or the id fails the validity filter). -/
def extractValidId (cells : List String) : Option String :=
  if cells.length < 1 then none
  else
    let oid := extract_order_id (cells.headD "")
    if valid_order_id oid then some oid else none

/-- Loop state of `scrape_orders_month` (sheets mode): the membership sets
`complete_orders` / `incomplete_orders` / `seen_ids`, the worksheet, the
counters, and the dead `found_old_order` flag.  `fetched` is a ghost log of
the order ids for which `fetch_order_json_via_new_tab` was called, in call
order; the code performs the call exactly where the log is appended. -/
structure SyncState where
  complete : List String
  incomplete : List String
  seen : List String
  sheet : List (List String)
  fetched : List String
  totalScraped : Nat
  successCount : Nat
  skippedCount : Nat
  foundOldOrder : Bool
deriving Repr, DecidableEq

/-- `incomplete_orders[oid] = "NO_API_DATA"`: membership-wise, add the key
if absent. -/
def insertOnce (l : List String) (k : String) : List String :=
  if l.contains k then l else l ++ [k]

/-- The `row_data` dict (lines 925–939) with the detail fields supplied by
the environment; in sheets mode `row_data["Order Number"]` is then set to
`"'" + order_id`. -/
def buildRow (oid status created updated : String) (d : OrderDetail) (nowIso : String) :
    List (String × String) :=
  [("Order Number", oid), ("Order Status", status), ("Created Date", created),
   ("Updated Date", updated), ("Name", d.name), ("Email", d.email),
   ("Phone Number", d.phone), ("Appointment Date", d.appointment),
   ("Address", d.address), ("Package", d.package), ("IC Number", d.icNumber),
   ("Creator", d.creator), ("Last Synced", nowIso)]

/-- One iteration of `for row_idx, row in enumerate(order_rows, 1)` in sheets
mode (lines 628–1010): extract and validate the id, decide skip/fetch, fetch,
guard the payload, and either record the order incomplete or build the row,
upsert it immediately and mark the order complete.  `fullSync` is threaded
because the source receives it here; inside the row loop it only selects
log messages. -/
def processRow (fullSync : Bool) (env : ScrapeEnv) (st : SyncState) (cells : List String) :
    SyncState :=
  if cells.length < 1 then st
  else
    let oid := extract_order_id (cells.headD "")
    if ¬ valid_order_id oid then st
    else
      let status := if cells.length > 3 then pyStrip (cells.getD 3 "") else ""
      let created := standardize_date (if cells.length > 4 then pyStrip (cells.getD 4 "") else "")
      let updated := standardize_date (if cells.length > 5 then pyStrip (cells.getD 5 "") else "")
      if st.complete.contains oid then
        { st with skippedCount := st.skippedCount + 1 }
      else if st.seen.contains oid then st
      else
        let st1 := { st with seen := st.seen ++ [oid], totalScraped := st.totalScraped + 1,
                             fetched := st.fetched ++ [oid] }
        match env.detail oid with
        | none => { st1 with incomplete := insertOnce st1.incomplete oid }
        | some d =>
          let row := buildRow (String.mk ('\'' :: oid.toList)) status created updated d env.nowIso
          { st1 with sheet := upsert_rows st1.sheet [row],
                     complete := st1.complete ++ [oid],
                     incomplete := st1.incomplete.filter (fun k => k ≠ oid),
                     successCount := st1.successCount + 1 }

def processRows (fullSync : Bool) (env : ScrapeEnv) (st : SyncState)
    (rows : List (List String)) : SyncState :=
  rows.foldl (processRow fullSync env) st

/-- A listing page: its visible rows and whether the Next control reports
`aria-disabled="true"`. -/
structure UiPage where
  rows : List (List String)
  nextDisabled : Bool

/-- Lines 1012–1023.  The float test `recent_skip_ratio > 0.8` with
`recent_skip_ratio = skipped_count / max(1, total_scraped + skipped_count)`
is modelled exactly over the integers (`10 * s > 8 * m`); every instance this
development evaluates it at is far from the `0.8` boundary, where float and
rational semantics agree. -/
def earlyExitCond (fullSync : Bool) (st : SyncState) (pageNumber : Nat) : Bool :=
  if !fullSync && st.foundOldOrder && pageNumber > 1 then
    decide (10 * st.skippedCount > 8 * max 1 (st.totalScraped + st.skippedCount))
  else false

/-- The `while True` pagination loop: process the page's rows, test the
early exit, then the Next control; an exhausted page list models the
defensive terminations of the next-page block. -/
def runPages (fullSync : Bool) (env : ScrapeEnv) :
    List UiPage → Nat → SyncState → SyncState
  | [], _, st => st
  | p :: rest, pageNumber, st =>
    let st1 := processRows fullSync env st p.rows
    if earlyExitCond fullSync st1 pageNumber then st1
    else if p.nextDisabled then st1
    else runPages fullSync env rest (pageNumber + 1) st1

/-- `check_existing_orders_with_dates`: partition the worksheet's order
numbers by whether the Last Synced cell (column index 12) is non-blank. -/
def check_existing (ws : List (List String)) : List String × List String :=
  ws.tail.foldl
    (fun (acc : List String × List String) row =>
      if row = [] then acc
      else
        let key0 := pyStrip (row.headD "")
        if key0 = "" then acc
        else
          let oid := stripApos key0
          if pyStrip (row.getD 12 "") ≠ "" then (acc.1 ++ [oid], acc.2)
          else (acc.1, acc.2 ++ [oid]))
    ([], [])

/-- `scrape_orders_month` in sheets mode, from the point the worksheet has
been read to the final re-sort: build the complete/incomplete partition,
initialize the loop state (`found_old_order = False`, line 573), run the
pagination loop from page 1, and sort the tab by Created Date once at the
end (lines 1245–1253). -/
def scrape_month_sheets (fullSync : Bool) (env : ScrapeEnv) (ws0 : List (List String))
    (pages : List UiPage) : SyncState :=
  let ci := check_existing ws0
  let st1 := runPages fullSync env pages 1
    ⟨ci.1, ci.2, [], ws0, [], 0, 0, 0, false⟩
  { st1 with sheet := sort_tab_by_created_date st1.sheet }

/-- `scrape_orders.should_rescrape_order`: skip exactly when the id has a
Last Synced entry; the `ui_updated_date` argument is accepted and ignored. -/
def should_rescrape_order (order_id : String) (ui_updated_date : String)
    (complete_orders : List String) : Bool :=
  if complete_orders.contains order_id then false else true

/-! ## `api_server.py`: `POST /jobs` -/

/-- Outcome of `create_job`: the HTTP payload actually returned. -/
inductive CreateJobResult where
  | accepted (httpStatus : Nat) (jobId : String) (status : String)
  | rejected (httpStatus : Nat) (success : Bool) (error : String)
deriving Repr, DecidableEq

/-- `api_server.create_job` over the `JOBS` registry (job id, status):
reject with 409 while any job is `queued` or `running`, otherwise register
the new id as `queued` and answer 202. -/
def create_job (jobs : List (String × String)) (newId : String) :
    CreateJobResult × List (String × String) :=
  if jobs.any (fun j => j.2 = "queued" || j.2 = "running") then
    (.rejected 409 false "JOB_IN_PROGRESS", jobs)
  else
    (.accepted 202 newId "queued", jobs ++ [(newId, "queued")])

/-! ## `login_manager.py`: OTP phase of a fresh login

The two messaging inboxes are modelled as an environment recording what each
would deliver if polled.  `login_and_get_context` (lines 168–208) polls only
the Telegram reader (`telegram_otp_reader.get_latest_otp`, bound 1200 s);
on `None` it raises `RuntimeError`.  The Gmail reader
(`gmail_otp_reader.get_latest_otp`) is never consulted on this path. -/

structure OtpEnv where
  telegramOtp : Option String
  gmailOtp : Option String
deriving Repr, DecidableEq

def login_fresh_otp (env : OtpEnv) : Except String String :=
  match env.telegramOtp with
  | some otp => Except.ok otp
  | none => Except.error "Failed to retrieve OTP from Telegram"

/-! ## Helper lemmas about one row-loop iteration -/

theorem extractValidId_some_inv {cells : List String} {oid : String}
    (h : extractValidId cells = some oid) :
    ¬ cells.length < 1 ∧ extract_order_id (cells.headD "") = oid ∧
      valid_order_id oid = true := by
  simp only [extractValidId] at h
  by_cases hl : cells.length < 1
  · rw [if_pos hl] at h; cases h
  · rw [if_neg hl] at h
    by_cases hv : valid_order_id (extract_order_id (cells.headD "")) = true
    · rw [if_pos hv] at h
      obtain rfl := Option.some.inj h
      exact ⟨hl, rfl, hv⟩
    · rw [if_neg hv] at h; cases h

theorem processRow_of_invalid (fs : Bool) (env : ScrapeEnv) (st : SyncState)
    (cells : List String) (h : extractValidId cells = none) :
    processRow fs env st cells = st := by
  simp only [extractValidId] at h
  simp only [processRow]
  by_cases hl : cells.length < 1
  · rw [if_pos hl]
  · rw [if_neg hl] at h ⊢
    by_cases hv : valid_order_id (extract_order_id (cells.headD "")) = true
    · rw [if_pos hv] at h; cases h
    · rw [if_pos hv]

theorem processRow_of_complete (fs : Bool) (env : ScrapeEnv) (st : SyncState)
    (cells : List String) (oid : String) (h : extractValidId cells = some oid)
    (hc : st.complete.contains oid = true) :
    processRow fs env st cells = { st with skippedCount := st.skippedCount + 1 } := by
  obtain ⟨hl, heq, hv⟩ := extractValidId_some_inv h
  simp only [processRow]
  rw [if_neg hl, heq, if_neg (by simp [hv]), if_pos hc]

theorem processRow_of_seen (fs : Bool) (env : ScrapeEnv) (st : SyncState)
    (cells : List String) (oid : String) (h : extractValidId cells = some oid)
    (hc : st.complete.contains oid = false) (hs : st.seen.contains oid = true) :
    processRow fs env st cells = st := by
  obtain ⟨hl, heq, hv⟩ := extractValidId_some_inv h
  simp only [processRow]
  rw [if_neg hl, heq, if_neg (by simp [hv]), if_neg (by rw [hc]; simp), if_pos hs]

/-- A fresh id (valid, not complete, not yet seen) is fetched: whatever the
payload, the ghost fetch log grows by exactly this id and the id enters
`seen_ids`; on a missing payload the order is recorded incomplete and
nothing is written, on a payload the row is upserted and the order completed. -/
theorem processRow_of_fresh (fs : Bool) (env : ScrapeEnv) (st : SyncState)
    (cells : List String) (oid : String) (h : extractValidId cells = some oid)
    (hc : st.complete.contains oid = false) (hs : st.seen.contains oid = false) :
    let st1 : SyncState :=
      { st with seen := st.seen ++ [oid], totalScraped := st.totalScraped + 1,
                fetched := st.fetched ++ [oid] }
    processRow fs env st cells =
      match env.detail oid with
      | none => { st1 with incomplete := insertOnce st1.incomplete oid }
      | some d =>
        { st1 with
            sheet := upsert_rows st1.sheet
              [buildRow (String.mk ('\'' :: oid.toList))
                (if cells.length > 3 then pyStrip (cells.getD 3 "") else "")
                (standardize_date (if cells.length > 4 then pyStrip (cells.getD 4 "") else ""))
                (standardize_date (if cells.length > 5 then pyStrip (cells.getD 5 "") else ""))
                d env.nowIso],
            complete := st1.complete ++ [oid],
            incomplete := st1.incomplete.filter (fun k => k ≠ oid),
            successCount := st1.successCount + 1 } := by
  obtain ⟨hl, heq, hv⟩ := extractValidId_some_inv h
  simp only [processRow]
  rw [if_neg hl, heq, if_neg (by simp [hv]), if_neg (by rw [hc]; simp), if_neg (by rw [hs]; simp)]

/-! ## C1 -/

/-- C1: the incremental-sync decision skips an order iff its id is in the
complete set.  `should_rescrape_order` ignores the portal-reported updated
date and takes no mode flag; the inlined loop decision behaves identically
for both values of `full_sync`: an id with a Last Synced entry is skipped
(only the skip counter moves), an id without one (not yet seen this run) is
fetched. -/
theorem C1_sync_decision_skips_iff_complete :
    (∀ (oid upd : String) (complete : List String),
        should_rescrape_order oid upd complete = !complete.contains oid) ∧
    (∀ (fs : Bool) (env : ScrapeEnv) (st : SyncState) (cells : List String) (oid : String),
        extractValidId cells = some oid → st.complete.contains oid = true →
        processRow fs env st cells = { st with skippedCount := st.skippedCount + 1 }) ∧
    (∀ (fs : Bool) (env : ScrapeEnv) (st : SyncState) (cells : List String) (oid : String),
        extractValidId cells = some oid → st.complete.contains oid = false →
        st.seen.contains oid = false →
        (processRow fs env st cells).fetched = st.fetched ++ [oid]) := by
  refine ⟨?_, ?_, ?_⟩
  · intro oid upd complete
    unfold should_rescrape_order
    by_cases h : complete.contains oid <;> simp [h]
  · intro fs env st cells oid h hc
    exact processRow_of_complete fs env st cells oid h hc
  · intro fs env st cells oid h hc hs
    have := processRow_of_fresh fs env st cells oid h hc hs
    rw [this]
    cases env.detail oid <;> rfl

def w1_env : ScrapeEnv := ⟨fun _ => none, "2025-11-02T21:28:52"⟩

def w1_st : SyncState := ⟨["2025103112345"], [], [], [HEADERS], [], 0, 0, 0, false⟩

def w1_st2 : SyncState := ⟨["2025103112345"], [], [], [HEADERS], [], 0, 0, 0, false⟩

theorem C1_witness :
    should_rescrape_order "2025103112345" "31 Oct 2025 14:29" ["2025103112345"] = false ∧
    processRow true w1_env w1_st ["2025103112345"] =
      { w1_st with skippedCount := w1_st.skippedCount + 1 } ∧
    (processRow false w1_env w1_st2 ["2025103198765"]).fetched = w1_st2.fetched ++ ["2025103198765"] := by
  refine ⟨?_, ?_, ?_⟩
  · have h := C1_sync_decision_skips_iff_complete.1 "2025103112345" "31 Oct 2025 14:29"
      ["2025103112345"]
    rw [h]; decide
  · exact C1_sync_decision_skips_iff_complete.2.1 true w1_env w1_st ["2025103112345"]
      "2025103112345" (by decide) (by decide)
  · exact C1_sync_decision_skips_iff_complete.2.2 false w1_env w1_st2 ["2025103198765"]
      "2025103198765" (by decide) (by decide) (by decide)

/-! ## C2 -/

theorem bool_eq_false {b : Bool} (h : ¬ b = true) : b = false := by
  cases b
  · rfl
  · exact absurd rfl h

theorem processRow_other_id (fs : Bool) (env : ScrapeEnv) (st : SyncState)
    (cells : List String) (oid id : String) (hE : extractValidId cells = some oid)
    (hne : id ≠ oid) :
    (processRow fs env st cells).seen.contains id = st.seen.contains id ∧
    (processRow fs env st cells).complete.contains id = st.complete.contains id ∧
    List.count id (processRow fs env st cells).fetched = List.count id st.fetched := by
  by_cases hc : st.complete.contains oid = true
  · rw [processRow_of_complete fs env st cells oid hE hc]
    exact ⟨rfl, rfl, rfl⟩
  · by_cases hs : st.seen.contains oid = true
    · rw [processRow_of_seen fs env st cells oid hE (bool_eq_false hc) hs]
      exact ⟨rfl, rfl, rfl⟩
    · rw [processRow_of_fresh fs env st cells oid hE (bool_eq_false hc) (bool_eq_false hs)]
      cases hd : env.detail oid
      · refine ⟨?_, rfl, ?_⟩
        · show (st.seen ++ [oid]).contains id = st.seen.contains id
          simp [List.contains, hne]
        · show List.count id (st.fetched ++ [oid]) = List.count id st.fetched
          simp [List.count_append, List.count_singleton, Ne.symm hne]
      · refine ⟨?_, ?_, ?_⟩
        · show (st.seen ++ [oid]).contains id = st.seen.contains id
          simp [List.contains, hne]
        · show (st.complete ++ [oid]).contains id = st.complete.contains id
          simp [List.contains, hne]
        · show List.count id (st.fetched ++ [oid]) = List.count id st.fetched
          simp [List.count_append, List.count_singleton, Ne.symm hne]

/-- Once an id has been seen and fetched once, any further row keeps it seen
and never fetches it again. -/
theorem fetchedOnce_preserved_row (fs : Bool) (env : ScrapeEnv) (st : SyncState)
    (cells : List String) (id : String)
    (h1 : st.seen.contains id = true) (h2 : List.count id st.fetched = 1) :
    (processRow fs env st cells).seen.contains id = true ∧
    List.count id (processRow fs env st cells).fetched = 1 := by
  cases hE : extractValidId cells with
  | none =>
    rw [processRow_of_invalid fs env st cells hE]
    exact ⟨h1, h2⟩
  | some oid =>
    by_cases hid : id = oid
    · subst hid
      by_cases hc : st.complete.contains id = true
      · rw [processRow_of_complete fs env st cells id hE hc]
        exact ⟨h1, h2⟩
      · rw [processRow_of_seen fs env st cells id hE (bool_eq_false hc) h1]
        exact ⟨h1, h2⟩
    · obtain ⟨e1, _, e3⟩ := processRow_other_id fs env st cells oid id hE hid
      rw [e1, e3]
      exact ⟨h1, h2⟩

theorem fetchedOnce_preserved (fs : Bool) (env : ScrapeEnv) (id : String) :
    ∀ (rows : List (List String)) (st : SyncState),
      st.seen.contains id = true → List.count id st.fetched = 1 →
      (processRows fs env st rows).seen.contains id = true ∧
      List.count id (processRows fs env st rows).fetched = 1 := by
  intro rows
  induction rows with
  | nil => intro st h1 h2; exact ⟨h1, h2⟩
  | cons c cs ih =>
    intro st h1 h2
    obtain ⟨g1, g2⟩ := fetchedOnce_preserved_row fs env st c id h1 h2
    exact ih (processRow fs env st c) g1 g2

/-- Before an id is encountered, any row not yielding it leaves it unseen,
not complete, and unfetched. -/
theorem unfetched_preserved_row (fs : Bool) (env : ScrapeEnv) (st : SyncState)
    (cells : List String) (id : String) (hE : extractValidId cells ≠ some id)
    (h1 : st.seen.contains id = false) (h2 : st.complete.contains id = false)
    (h3 : List.count id st.fetched = 0) :
    (processRow fs env st cells).seen.contains id = false ∧
    (processRow fs env st cells).complete.contains id = false ∧
    List.count id (processRow fs env st cells).fetched = 0 := by
  cases hx : extractValidId cells with
  | none =>
    rw [processRow_of_invalid fs env st cells hx]
    exact ⟨h1, h2, h3⟩
  | some oid =>
    have hne : id ≠ oid := by
      intro h
      exact hE (h ▸ hx)
    obtain ⟨e1, e2, e3⟩ := processRow_other_id fs env st cells oid id hx hne
    rw [e1, e2, e3]
    exact ⟨h1, h2, h3⟩

theorem fetch_once_aux (fs : Bool) (env : ScrapeEnv) (id : String) :
    ∀ (rows : List (List String)) (st : SyncState),
      st.seen.contains id = false → st.complete.contains id = false →
      List.count id st.fetched = 0 →
      (∃ cells ∈ rows, extractValidId cells = some id) →
      List.count id (processRows fs env st rows).fetched = 1 := by
  intro rows
  induction rows with
  | nil =>
    intro st _ _ _ hex
    obtain ⟨c, hc, _⟩ := hex
    cases hc
  | cons c cs ih =>
    intro st h1 h2 h3 hex
    by_cases hE : extractValidId c = some id
    · have hfr := processRow_of_fresh fs env st c id hE h2 h1
      have hseen : (processRow fs env st c).seen.contains id = true := by
        rw [hfr]
        cases hd : env.detail id <;>
          · show (st.seen ++ [id]).contains id = true
            simp [List.contains]
      have hcount : List.count id (processRow fs env st c).fetched = 1 := by
        rw [hfr]
        cases hd : env.detail id <;>
          · show List.count id (st.fetched ++ [id]) = 1
            simp [List.count_append, h3]
      exact (fetchedOnce_preserved fs env id cs (processRow fs env st c) hseen hcount).2
    · obtain ⟨g1, g2, g3⟩ := unfetched_preserved_row fs env st c id hE h1 h2 h3
      have hex' : ∃ cells ∈ cs, extractValidId cells = some id := by
        obtain ⟨w, hw, hwid⟩ := hex
        rcases List.mem_cons.mp hw with hw1 | hw1
        · exact absurd (hw1 ▸ hwid) hE
        · exact ⟨w, hw1, hwid⟩
      exact ih (processRow fs env st c) g1 g2 g3 hex'

/-- C2: within one run (fresh `seen_ids`), every valid order id that is
absent from the complete set and appears in the listing is fetched exactly
once — the first encounter fetches it, and each later encounter is skipped
whether the fetch succeeded (the id entered the complete set) or failed
(the id stayed in the per-run seen set). -/
theorem C2_fetch_exactly_once :
    ∀ (fs : Bool) (env : ScrapeEnv) (complete0 incomplete0 : List String)
      (ws : List (List String)) (rows : List (List String)) (id : String),
      complete0.contains id = false →
      (∃ cells ∈ rows, extractValidId cells = some id) →
      List.count id
        (processRows fs env ⟨complete0, incomplete0, [], ws, [], 0, 0, 0, false⟩ rows).fetched
        = 1 := by
  intro fs env complete0 incomplete0 ws rows id hc hex
  exact fetch_once_aux fs env id rows ⟨complete0, incomplete0, [], ws, [], 0, 0, 0, false⟩
    rfl hc rfl hex

def w2_env : ScrapeEnv := ⟨fun _ => none, "2025-11-02T21:28:52"⟩

theorem C2_witness :
    List.count "2025103155555"
      (processRows false w2_env ⟨["2025103100011"], [], [], [HEADERS], [], 0, 0, 0, false⟩
        [["2025103155555"], ["2025103100011"], ["2025103155555"], ["2025103155555"]]).fetched
      = 1 := by
  exact C2_fetch_exactly_once false w2_env ["2025103100011"] [] [HEADERS]
    [["2025103155555"], ["2025103100011"], ["2025103155555"], ["2025103155555"]]
    "2025103155555" (by decide) ⟨["2025103155555"], by simp, by decide⟩

/-! ## C9 -/

/-- C9: `POST /jobs` creates a job (202, `{job_id, status: "queued"}`, id
registered as queued) exactly when no registered job is `queued` or
`running`; otherwise it answers 409 with `success: false` and leaves the
registry untouched. -/
theorem C9_create_job_conflict :
    ∀ (jobs : List (String × String)) (newId : String),
      ((∀ j ∈ jobs, j.2 ≠ "queued" ∧ j.2 ≠ "running") →
        create_job jobs newId =
          (CreateJobResult.accepted 202 newId "queued", jobs ++ [(newId, "queued")])) ∧
      (∀ j ∈ jobs, (j.2 = "queued" ∨ j.2 = "running") →
        create_job jobs newId =
          (CreateJobResult.rejected 409 false "JOB_IN_PROGRESS", jobs)) := by
  intro jobs newId
  constructor
  · intro h
    unfold create_job
    rw [if_neg]
    intro hany
    obtain ⟨j, hj, hactive⟩ := List.any_eq_true.mp hany
    have hor : j.2 = "queued" ∨ j.2 = "running" := by simpa using hactive
    rcases hor with h1 | h1
    · exact (h j hj).1 h1
    · exact (h j hj).2 h1
  · intro j hj hja
    unfold create_job
    rw [if_pos]
    exact List.any_eq_true.mpr ⟨j, hj, by rcases hja with h1 | h1 <;> simp [h1]⟩

theorem C9_witness :
    create_job [("a1", "done"), ("a2", "error")] "b7" =
      (CreateJobResult.accepted 202 "b7" "queued",
        [("a1", "done"), ("a2", "error"), ("b7", "queued")]) ∧
    create_job [("a1", "done"), ("a3", "running")] "b8" =
      (CreateJobResult.rejected 409 false "JOB_IN_PROGRESS",
        [("a1", "done"), ("a3", "running")]) := by
  constructor
  · exact (C9_create_job_conflict [("a1", "done"), ("a2", "error")] "b7").1 (by decide)
  · exact (C9_create_job_conflict [("a1", "done"), ("a3", "running")] "b8").2
      ("a3", "running") (by decide) (Or.inr rfl)

/-! ## C5 -/

/-- C5 counterexample: on a fresh login with the Telegram source yielding
nothing and the Gmail source holding a valid code, the login does not
proceed with the Gmail code — it fails with the Telegram error.  The claimed
fallback to a second OTP source does not exist in `login_and_get_context`. -/
theorem C5_counterexample_no_gmail_fallback :
    login_fresh_otp ⟨none, some "641776"⟩ =
      Except.error "Failed to retrieve OTP from Telegram" ∧
    login_fresh_otp ⟨none, some "641776"⟩ ≠ Except.ok "641776" := by
  exact ⟨rfl, fun h => Except.noConfusion h⟩

/-- C5 amended: on a fresh login exactly one OTP source is consulted — the
Telegram reader; login proceeds with a code iff Telegram yields it, fails
fatally iff Telegram yields nothing, and the outcome is independent of
whatever the Gmail inbox holds. -/
theorem C5_single_otp_source :
    ∀ env : OtpEnv,
      (∀ c : String, login_fresh_otp env = Except.ok c ↔ env.telegramOtp = some c) ∧
      (login_fresh_otp env = Except.error "Failed to retrieve OTP from Telegram" ↔
        env.telegramOtp = none) ∧
      (∀ g : Option String, login_fresh_otp ⟨env.telegramOtp, g⟩ = login_fresh_otp env) := by
  intro env
  refine ⟨?_, ?_, ?_⟩
  · intro c
    unfold login_fresh_otp
    cases env.telegramOtp <;> simp
  · unfold login_fresh_otp
    cases env.telegramOtp <;> simp
  · intro g
    unfold login_fresh_otp
    rfl

/-! ## C6 -/

/-- C6: a missing detail payload (no JSON captured within the bounded wait,
or a JSON whose `data` field is absent/falsy, i.e. `env.detail oid = none`)
is a soft failure: the worksheet is untouched (no blanks written over
existing fields), the id is recorded in the incomplete set for later retry,
the fetch was attempted, and the loop goes on to process the remaining rows
from the updated state. -/
theorem C6_missing_payload_soft_failure :
    ∀ (fs : Bool) (env : ScrapeEnv) (st : SyncState) (cells : List String)
      (oid : String) (rest : List (List String)),
      extractValidId cells = some oid →
      env.detail oid = none →
      st.complete.contains oid = false →
      st.seen.contains oid = false →
      (processRow fs env st cells).sheet = st.sheet ∧
      (processRow fs env st cells).incomplete.contains oid = true ∧
      (processRow fs env st cells).fetched = st.fetched ++ [oid] ∧
      processRows fs env st (cells :: rest) =
        processRows fs env (processRow fs env st cells) rest := by
  intro fs env st cells oid rest h hd hc hs
  have hfr := processRow_of_fresh fs env st cells oid h hc hs
  refine ⟨?_, ?_, ?_, rfl⟩
  · rw [hfr, hd]
  · rw [hfr, hd]
    show (insertOnce st.incomplete oid).contains oid = true
    unfold insertOnce
    by_cases hmem : st.incomplete.contains oid = true
    · rw [if_pos hmem]; exact hmem
    · rw [if_neg hmem]
      simp
  · rw [hfr, hd]

def w6_env : ScrapeEnv := ⟨fun _ => none, "2025-11-02T21:28:52"⟩

def w6_st : SyncState := ⟨["2025103111111"], [], [], [HEADERS], [], 0, 0, 0, false⟩

theorem C6_witness :
    (processRow false w6_env w6_st ["2025103122222", "x", "y", "Completed", "", ""]).sheet
        = w6_st.sheet ∧
    (processRow false w6_env w6_st
        ["2025103122222", "x", "y", "Completed", "", ""]).incomplete.contains "2025103122222"
        = true := by
  have h := C6_missing_payload_soft_failure false w6_env w6_st
    ["2025103122222", "x", "y", "Completed", "", ""] "2025103122222" []
    (by decide) rfl (by decide) (by decide)
  exact ⟨h.1, h.2.1⟩

/-! ## C8 -/

theorem keyLt_asymm : ∀ a b : List Nat, keyLt a b = true → keyLt b a = false := by
  intro a
  induction a with
  | nil =>
    intro b h
    cases b with
    | nil => cases h
    | cons y ys => rfl
  | cons x xs ih =>
    intro b h
    cases b with
    | nil => cases h
    | cons y ys =>
      simp only [keyLt] at h ⊢
      by_cases h1 : x < y
      · rw [if_neg (by omega), if_pos h1]
      · rw [if_neg h1] at h
        by_cases h2 : y < x
        · rw [if_pos h2] at h; cases h
        · rw [if_neg h2] at h
          rw [if_neg h2, if_neg h1]
          exact ih ys h

theorem keyLt_neg_trans : ∀ a b c : List Nat,
    keyLt a b = false → keyLt b c = false → keyLt a c = false := by
  intro a
  induction a with
  | nil =>
    intro b c hab hbc
    cases b with
    | nil => exact hbc
    | cons y ys => cases hab
  | cons x xs ih =>
    intro b c hab hbc
    cases b with
    | nil =>
      cases c with
      | nil => rfl
      | cons z zs => cases hbc
    | cons y ys =>
      cases c with
      | nil => rfl
      | cons z zs =>
        simp only [keyLt] at hab hbc ⊢
        by_cases h1 : x < y
        · rw [if_pos h1] at hab; cases hab
        · rw [if_neg h1] at hab
          by_cases h2 : y < z
          · rw [if_pos h2] at hbc; cases hbc
          · rw [if_neg h2] at hbc
            have hxz : ¬ x < z := by omega
            rw [if_neg hxz]
            by_cases h4 : z < x
            · rw [if_pos h4]
            · rw [if_neg h4]
              have hyx : ¬ y < x := by omega
              have hzy : ¬ z < y := by omega
              rw [if_neg hyx] at hab
              rw [if_neg hzy] at hbc
              exact ih ys zs hab hbc

theorem insDesc_perm (x : List String) :
    ∀ l : List (List String), (insDesc x l).Perm (x :: l) := by
  intro l
  induction l with
  | nil => exact List.Perm.refl [x]
  | cons y ys ih =>
    simp only [insDesc]
    by_cases h : keyLt (parse_date_for_sort x) (parse_date_for_sort y) = true
    · rw [if_pos h]
      exact (ih.cons y).trans (List.Perm.swap x y ys)
    · rw [if_neg h]

theorem sortDesc_perm : ∀ l : List (List String), (sortDesc l).Perm l := by
  intro l
  induction l with
  | nil => exact List.Perm.refl []
  | cons x xs ih =>
    exact (insDesc_perm x (sortDesc xs)).trans (ih.cons x)

/-- The descending relation the sort establishes between any earlier and any
later data row. -/
def rowGe (a b : List String) : Prop :=
  keyLt (parse_date_for_sort a) (parse_date_for_sort b) = false

theorem insDesc_pairwise (x : List String) :
    ∀ l : List (List String), List.Pairwise rowGe l →
      List.Pairwise rowGe (insDesc x l) := by
  intro l
  induction l with
  | nil => intro _; exact List.pairwise_singleton rowGe x
  | cons y ys ih =>
    intro hp
    obtain ⟨hy, hys⟩ := List.pairwise_cons.mp hp
    simp only [insDesc]
    by_cases h : keyLt (parse_date_for_sort x) (parse_date_for_sort y) = true
    · rw [if_pos h]
      refine List.pairwise_cons.mpr ⟨?_, ih hys⟩
      intro w hw
      have hw' : w ∈ x :: ys := (insDesc_perm x ys).mem_iff.mp hw
      rcases List.mem_cons.mp hw' with hw1 | hw1
      · subst hw1
        exact keyLt_asymm _ _ h
      · exact hy w hw1
    · rw [if_neg h]
      refine List.pairwise_cons.mpr ⟨?_, hp⟩
      intro w hw
      rcases List.mem_cons.mp hw with hw1 | hw1
      · subst hw1
        exact bool_eq_false h
      · exact keyLt_neg_trans _ _ _ (bool_eq_false h) (hy w hw1)

theorem sortDesc_pairwise : ∀ l : List (List String),
    List.Pairwise rowGe (sortDesc l) := by
  intro l
  induction l with
  | nil => exact List.Pairwise.nil
  | cons x xs ih => exact insDesc_pairwise x (sortDesc xs) ih

theorem pds_length : ∀ row : List String, (parse_date_for_sort row).length = 6 := by
  intro row
  simp only [parse_date_for_sort]
  split
  · rfl
  · split
    · rfl
    · split <;> rfl

theorem zeros_key : ∀ k : List Nat, k.length = 6 →
    keyLt [0, 0, 0, 0, 0, 0] k = false → k = [0, 0, 0, 0, 0, 0] := by
  intro k hlen h
  rcases k with _ | ⟨a, _ | ⟨b, _ | ⟨c, _ | ⟨d, _ | ⟨e, _ | ⟨f, _ | ⟨g, k⟩⟩⟩⟩⟩⟩⟩ <;>
    simp only [List.length] at hlen <;> try omega
  simp only [keyLt] at h
  have ha : ¬ 0 < a := by
    intro hlt
    rw [if_pos hlt] at h
    cases h
  rw [if_neg ha, if_neg (by omega)] at h
  have hb : ¬ 0 < b := by
    intro hlt
    rw [if_pos hlt] at h
    cases h
  rw [if_neg hb, if_neg (by omega)] at h
  have hc : ¬ 0 < c := by
    intro hlt
    rw [if_pos hlt] at h
    cases h
  rw [if_neg hc, if_neg (by omega)] at h
  have hd : ¬ 0 < d := by
    intro hlt
    rw [if_pos hlt] at h
    cases h
  rw [if_neg hd, if_neg (by omega)] at h
  have he : ¬ 0 < e := by
    intro hlt
    rw [if_pos hlt] at h
    cases h
  rw [if_neg he, if_neg (by omega)] at h
  have hf : ¬ 0 < f := by
    intro hlt
    rw [if_pos hlt] at h
    cases h
  have : a = 0 ∧ b = 0 ∧ c = 0 ∧ d = 0 ∧ e = 0 ∧ f = 0 := by omega
  simp [this.1, this.2.1, this.2.2.1, this.2.2.2.1, this.2.2.2.2.1, this.2.2.2.2.2]

theorem rowGe_zeros {a b : List String} (h : rowGe a b)
    (ha : parse_date_for_sort a = [0, 0, 0, 0, 0, 0]) :
    parse_date_for_sort b = [0, 0, 0, 0, 0, 0] := by
  unfold rowGe at h
  rw [ha] at h
  exact zeros_key (parse_date_for_sort b) (pds_length b) h

/-- C8: a sheets-mode run re-sorts the tab exactly once, at the very end:
the final worksheet is `sort_tab_by_created_date` of the post-loop
worksheet, and that sort keeps the header row first, permutes exactly the
data rows, orders them descending by Created-Date key (newest first), and
places every row with an empty/unparsable Created Date (all-zero key) after
every row with a parsable one. -/
theorem C8_end_of_run_sort :
    (∀ (fs : Bool) (env : ScrapeEnv) (ws0 : List (List String)) (pages : List UiPage),
      (scrape_month_sheets fs env ws0 pages).sheet =
        sort_tab_by_created_date
          ((runPages fs env pages 1
            ⟨(check_existing ws0).1, (check_existing ws0).2, [], ws0, [], 0, 0, 0,
              false⟩).sheet)) ∧
    (∀ ws : List (List String),
      (sort_tab_by_created_date ws).headD [] = ws.headD [] ∧
      (sort_tab_by_created_date ws).tail.Perm ws.tail ∧
      List.Pairwise rowGe (sort_tab_by_created_date ws).tail ∧
      List.Pairwise
        (fun a b => parse_date_for_sort a = [0, 0, 0, 0, 0, 0] →
          parse_date_for_sort b = [0, 0, 0, 0, 0, 0])
        (sort_tab_by_created_date ws).tail) := by
  constructor
  · intro fs env ws0 pages
    rfl
  · intro ws
    match ws with
    | [] =>
      exact ⟨rfl, List.Perm.refl [], List.Pairwise.nil, List.Pairwise.nil⟩
    | [h] =>
      exact ⟨rfl, List.Perm.refl [], List.Pairwise.nil, List.Pairwise.nil⟩
    | h :: r1 :: rest =>
      refine ⟨rfl, ?_, ?_, ?_⟩
      · exact sortDesc_perm (r1 :: rest)
      · exact sortDesc_pairwise (r1 :: rest)
      · exact (sortDesc_pairwise (r1 :: rest)).imp (fun hab => rowGe_zeros hab)

/-! ## C3 -/

/-- The key `build_index` derives from a worksheet row (empty when the row
is skipped). -/
def indexKey (row : List String) : String :=
  if row = [] then ""
  else
    if pyStrip (row.headD "") = "" then "" else stripApos (pyStrip (row.headD ""))

theorem beq_false_of_ne {a b : String} (h : ¬ a = b) : (a == b) = false := by
  cases hab : a == b with
  | false => rfl
  | true => exact absurd (eq_of_beq hab) h

theorem lookup_cons_self (k : String) (v : Nat) (d : List (String × Nat)) :
    List.lookup k ((k, v) :: d) = some v := by
  simp [List.lookup]

theorem lookup_cons_ne (k a : String) (hne : ¬ a = k) (v : Nat) (d : List (String × Nat)) :
    List.lookup k ((a, v) :: d) = List.lookup k d := by
  simp [List.lookup, beq_false_of_ne (fun h => hne h.symm)]

theorem lookup_map_found (k : String) (v : Nat) :
    ∀ d : List (String × Nat), (∃ p ∈ d, p.1 = k) →
      List.lookup k (d.map (fun p => if p.1 = k then (k, v) else p)) = some v := by
  intro d
  induction d with
  | nil =>
    rintro ⟨p, hp, _⟩
    cases hp
  | cons a as ih =>
    rintro ⟨p, hp, hpk⟩
    obtain ⟨a1, a2⟩ := a
    rw [List.map_cons]
    by_cases ha : a1 = k
    · have hred : (if (a1, a2).1 = k then (k, v) else (a1, a2)) = (k, v) := by
        simp [ha]
      rw [hred, lookup_cons_self]
    · have hred : (if (a1, a2).1 = k then (k, v) else (a1, a2)) = (a1, a2) := by
        simp [ha]
      rw [hred, lookup_cons_ne k a1 ha a2]
      apply ih
      rcases List.mem_cons.mp hp with h1 | h1
      · exact absurd (by rw [h1] at hpk; exact hpk) ha
      · exact ⟨p, h1, hpk⟩

theorem lookup_map_other (k' : String) (v : Nat) (k : String) (hne : ¬ k' = k) :
    ∀ d : List (String × Nat),
      List.lookup k (d.map (fun p => if p.1 = k' then (k', v) else p)) =
        List.lookup k d := by
  intro d
  induction d with
  | nil => rfl
  | cons a as ih =>
    obtain ⟨a1, a2⟩ := a
    rw [List.map_cons]
    by_cases ha : a1 = k'
    · have hred : (if (a1, a2).1 = k' then (k', v) else (a1, a2)) = (k', v) := by
        simp [ha]
      rw [hred, lookup_cons_ne k k' hne v, lookup_cons_ne k a1 (ha ▸ hne) a2, ih]
    · have hred : (if (a1, a2).1 = k' then (k', v) else (a1, a2)) = (a1, a2) := by
        simp [ha]
      rw [hred]
      by_cases hak : a1 = k
      · subst hak
        rw [lookup_cons_self, lookup_cons_self]
      · rw [lookup_cons_ne k a1 hak a2, lookup_cons_ne k a1 hak a2, ih]

theorem lookup_append_one (k' : String) (v : Nat) (k : String) :
    ∀ d : List (String × Nat), (∀ p ∈ d, ¬ p.1 = k) →
      List.lookup k (d ++ [(k', v)]) = if k' = k then some v else none := by
  intro d
  induction d with
  | nil =>
    intro _
    by_cases hk : k' = k
    · subst hk
      rw [List.nil_append, lookup_cons_self, if_pos rfl]
    · rw [List.nil_append, lookup_cons_ne k k' hk v, if_neg hk]
      rfl
  | cons a as ih =>
    intro hall
    obtain ⟨a1, a2⟩ := a
    rw [List.cons_append,
      lookup_cons_ne k a1 (hall (a1, a2) (List.mem_cons_self _ _)) a2]
    exact ih (fun p hp => hall p (List.mem_cons_of_mem _ hp))

theorem lookup_append_one_ne (k' : String) (v : Nat) (k : String) (hk : ¬ k' = k) :
    ∀ d : List (String × Nat), List.lookup k (d ++ [(k', v)]) = List.lookup k d := by
  intro d
  induction d with
  | nil =>
    rw [List.nil_append, lookup_cons_ne k k' hk v]
  | cons a as ih =>
    obtain ⟨a1, a2⟩ := a
    by_cases hak : a1 = k
    · subst hak
      rw [List.cons_append, lookup_cons_self, lookup_cons_self]
    · rw [List.cons_append, lookup_cons_ne k a1 hak a2, lookup_cons_ne k a1 hak a2, ih]

theorem lookup_dictInsert (k' : String) (v : Nat) (k : String) :
    ∀ d : List (String × Nat),
      List.lookup k (dictInsert k' v d) = if k' = k then some v else List.lookup k d := by
  intro d
  unfold dictInsert
  by_cases hany : d.any (fun p => p.1 = k') = true
  · rw [if_pos hany]
    by_cases hk : k' = k
    · subst hk
      rw [if_pos rfl]
      obtain ⟨p, hp, hpk⟩ := List.any_eq_true.mp hany
      exact lookup_map_found k' v d ⟨p, hp, of_decide_eq_true hpk⟩
    · rw [if_neg hk]
      exact lookup_map_other k' v k hk d
  · rw [if_neg hany]
    have hnk : ∀ p ∈ d, ¬ p.1 = k' := by
      intro p hp hpk
      exact hany (List.any_eq_true.mpr ⟨p, hp, decide_eq_true hpk⟩)
    by_cases hk : k' = k
    · subst hk
      rw [if_pos rfl, lookup_append_one k' v k' d hnk, if_pos rfl]
    · rw [if_neg hk]
      exact lookup_append_one_ne k' v k hk d

/-- Index (from the end) of the last row carrying a given key, mirroring
the dict's last-wins semantics. -/
def lastPos : List (List String) → String → Option Nat
  | [], _ => none
  | row :: rest, k =>
    match lastPos rest k with
    | some j => some (j + 1)
    | none => if indexKey row = k then some 0 else none

theorem lookup_buildIndexAux (k : String) (hk : k ≠ "") :
    ∀ (rows : List (List String)) (i : Nat) (d : List (String × Nat)),
      List.lookup k (buildIndexAux rows i d) =
        match lastPos rows k with
        | some j => some (i + j + 1)
        | none => List.lookup k d := by
  intro rows
  induction rows with
  | nil => intro i d; rfl
  | cons row rest ih =>
    intro i d
    simp only [buildIndexAux, lastPos]
    rw [ih (i + 1)]
    cases hlp : lastPos rest k with
    | some j =>
      simp only []
      congr 1
      omega
    | none =>
      simp only []
      by_cases hrow : row = []
      · rw [if_pos hrow]
        have : indexKey row = "" := by rw [indexKey, if_pos hrow]
        rw [this, if_neg (Ne.symm hk)]
      · rw [if_neg hrow]
        by_cases hkey0 : pyStrip (row.headD "") = ""
        · rw [if_pos hkey0]
          have : indexKey row = "" := by rw [indexKey, if_neg hrow, if_pos hkey0]
          rw [this, if_neg (Ne.symm hk)]
        · rw [if_neg hkey0]
          have hik : indexKey row = stripApos (pyStrip (row.headD "")) := by
            rw [indexKey, if_neg hrow, if_neg hkey0]
          rw [lookup_dictInsert, ← hik]
          by_cases hkk : indexKey row = k
          · rw [if_pos hkk, if_pos hkk]
          · rw [if_neg hkk, if_neg hkk]

theorem lookup_build_index (ws : List (List String)) (k : String) (hk : k ≠ "") :
    List.lookup k (build_index ws) =
      match lastPos ws.tail k with
      | some j => some (j + 2)
      | none => none := by
  unfold build_index
  rw [lookup_buildIndexAux k hk ws.tail 1 []]
  cases hlp : lastPos ws.tail k with
  | some j =>
    simp only []
    congr 1
    omega
  | none => rfl

theorem lastPos_none_iff (k : String) :
    ∀ rows : List (List String),
      lastPos rows k = none ↔ ∀ row ∈ rows, indexKey row ≠ k := by
  intro rows
  induction rows with
  | nil => simp [lastPos]
  | cons row rest ih =>
    simp only [lastPos]
    cases hlp : lastPos rest k with
    | some j =>
      simp only []
      constructor
      · intro h; cases h
      · intro h
        have := (ih.mpr (fun w hw => h w (List.mem_cons_of_mem row hw)))
        rw [this] at hlp
        cases hlp
    | none =>
      simp only []
      constructor
      · intro h
        by_cases hkey : indexKey row = k
        · rw [if_pos hkey] at h
          cases h
        · intro w hw
          rcases List.mem_cons.mp hw with h1 | h1
          · rw [h1]; exact hkey
          · exact ih.mp hlp w h1
      · intro h
        rw [if_neg (h row (List.mem_cons_self row rest))]

theorem lastPos_last (k : String) :
    ∀ (l1 : List (List String)) (mid : List String) (l2 : List (List String)),
      indexKey mid = k → (∀ row ∈ l2, indexKey row ≠ k) →
      lastPos (l1 ++ mid :: l2) k = some l1.length := by
  intro l1 mid l2 hmid hl2
  induction l1 with
  | nil =>
    simp only [List.nil_append, lastPos]
    rw [(lastPos_none_iff k l2).mpr hl2, if_pos hmid]
    rfl
  | cons row rest ih =>
    simp only [List.cons_append, lastPos, List.append_eq]
    rw [ih]
    simp

theorem lastPos_some_split (k : String) :
    ∀ (rows : List (List String)) (j : Nat), lastPos rows k = some j →
      ∃ l1 mid l2, rows = l1 ++ mid :: l2 ∧ l1.length = j ∧ indexKey mid = k ∧
        (∀ row ∈ l2, indexKey row ≠ k) := by
  intro rows
  induction rows with
  | nil => intro j h; cases h
  | cons row rest ih =>
    intro j h
    simp only [lastPos] at h
    cases hlp : lastPos rest k with
    | some j' =>
      rw [hlp] at h
      obtain rfl : j' + 1 = j := by cases h; rfl
      obtain ⟨l1, mid, l2, rfl, hlen, hmid, hl2⟩ := ih j' hlp
      exact ⟨row :: l1, mid, l2, rfl, by simp [hlen], hmid, hl2⟩
    | none =>
      rw [hlp] at h
      by_cases hkey : indexKey row = k
      · rw [if_pos hkey] at h
        obtain rfl : 0 = j := by cases h; rfl
        exact ⟨[], row, rest, rfl, rfl, hkey, (lastPos_none_iff k rest).mp hlp⟩
      · rw [if_neg hkey] at h
        cases h

theorem set_middle (l1 : List (List String)) (x : List String)
    (l2 : List (List String)) (y : List String) :
    (l1 ++ x :: l2).set l1.length y = l1 ++ y :: l2 := by
  induction l1 with
  | nil => rfl
  | cons a as ih => simp [List.set, ih]

theorem get?_middle (l1 : List (List String)) (x : List String)
    (l2 : List (List String)) :
    (l1 ++ x :: l2).get? l1.length = some x := by
  induction l1 with
  | nil => rfl
  | cons a as ih => simpa using ih

theorem rowValues_length (r : List (String × String)) : (rowValues r).length = 13 := rfl

theorem rowValues_ne_nil (r : List (String × String)) : rowValues r ≠ [] := by
  intro h
  have := congrArg List.length h
  rw [rowValues_length] at this
  cases this

theorem indexKey_values (r : List (String × String)) (suffix : List String)
    (hk : upsertKey (rowValues r) ≠ "") :
    indexKey (rowValues r ++ suffix) = upsertKey (rowValues r) := by
  have hne : rowValues r ++ suffix ≠ [] := by
    intro h
    exact rowValues_ne_nil r (List.append_eq_nil.mp h).1
  have hhead : (rowValues r ++ suffix).headD "" = (rowValues r).headD "" := by
    unfold rowValues
    rfl
  rw [indexKey, if_neg hne, hhead]
  by_cases h0 : pyStrip ((rowValues r).headD "") = ""
  · exfalso
    apply hk
    unfold upsertKey
    rw [h0]
    rfl
  · rw [if_neg h0]
    rfl

/-- After the upsert the row with key `k` is exactly `vs` padded with the
old row's surplus cells, and all other rows are untouched. -/
theorem upsert_rows_single (ws : List (List String)) (r : List (String × String))
    (hk : upsertKey (rowValues r) ≠ "") :
    upsert_rows ws [r] =
      match List.lookup (upsertKey (rowValues r)) (build_index ws) with
      | some rowNum => applyUpdate ws rowNum (rowValues r)
      | none => ws ++ [rowValues r] := by
  unfold upsert_rows
  simp only [List.foldl]
  rw [if_neg hk]
  cases hl : List.lookup (upsertKey (rowValues r)) (build_index ws) with
  | some rowNum => simp [List.foldl]
  | none => simp [List.foldl]

/-! The shape `goodShape l1 mid l2 k vs` captures a tab tail whose unique
`k`-row is `mid` (a padded copy of `vs`). -/

theorem filter_key_count (k : String) (l1 : List (List String)) (mid : List String)
    (l2 : List (List String)) (h1 : ∀ row ∈ l1, indexKey row ≠ k)
    (h2 : ∀ row ∈ l2, indexKey row ≠ k) (hmid : indexKey mid = k) :
    ((l1 ++ mid :: l2).filter (fun row => indexKey row = k)).length = 1 := by
  rw [List.filter_append]
  have e1 : l1.filter (fun row => decide (indexKey row = k)) = [] := by
    rw [List.filter_eq_nil]
    intro row hrow
    simp [h1 row hrow]
  have e2 : l2.filter (fun row => decide (indexKey row = k)) = [] := by
    rw [List.filter_eq_nil]
    intro row hrow
    simp [h2 row hrow]
  rw [e1]
  simp only [List.filter_cons, hmid]
  rw [e2]
  simp

theorem mem_key_unique (k : String) (l1 : List (List String)) (mid : List String)
    (l2 : List (List String)) (h1 : ∀ row ∈ l1, indexKey row ≠ k)
    (h2 : ∀ row ∈ l2, indexKey row ≠ k) :
    ∀ row ∈ l1 ++ mid :: l2, indexKey row = k → row = mid := by
  intro row hrow hkey
  rcases List.mem_append.mp hrow with h | h
  · exact absurd hkey (h1 row h)
  · rcases List.mem_cons.mp h with h | h
    · exact h
    · exact absurd hkey (h2 row h)

/-- Nonempty keys of a unique-keys tail single out the `k` positions. -/
theorem nodup_keys_split (k : String) (hk : k ≠ "") (l1 : List (List String))
    (mid : List String) (l2 : List (List String)) (hmid : indexKey mid = k)
    (hnd : (((l1 ++ mid :: l2).map indexKey).filter (fun k' => k' ≠ "")).Nodup) :
    (∀ row ∈ l1, indexKey row ≠ k) ∧ (∀ row ∈ l2, indexKey row ≠ k) := by
  rw [List.map_append, List.map_cons, List.filter_append, hmid] at hnd
  simp only [List.filter_cons] at hnd
  rw [if_pos (by simpa using hk)] at hnd
  obtain ⟨h1n, h2n, hdisj⟩ := List.nodup_append.mp hnd
  constructor
  · intro row hrow hkey
    have hmem1 : k ∈ (l1.map indexKey).filter (fun k' => decide (k' ≠ "")) := by
      apply List.mem_filter.mpr
      exact ⟨List.mem_map.mpr ⟨row, hrow, hkey⟩, by simpa using hk⟩
    exact hdisj hmem1 (List.mem_cons_self _ _)
  · intro row hrow hkey
    have hmem2 : k ∈ (l2.map indexKey).filter (fun k' => decide (k' ≠ "")) := by
      apply List.mem_filter.mpr
      exact ⟨List.mem_map.mpr ⟨row, hrow, hkey⟩, by simpa using hk⟩
    exact (List.nodup_cons.mp h2n).1 hmem2

theorem take_13_append (vs : List String) (h : vs.length = 13) (t : List String) :
    (vs ++ t).take 13 = vs := by
  rw [← h, List.take_left]

theorem drop_13_append (vs : List String) (h : vs.length = 13) (t : List String) :
    (vs ++ t).drop 13 = t := by
  rw [← h, List.drop_left]

theorem indexKey_values0 (r : List (String × String))
    (hk : upsertKey (rowValues r) ≠ "") :
    indexKey (rowValues r) = upsertKey (rowValues r) := by
  have h := indexKey_values r [] hk
  rwa [List.append_nil] at h

theorem rowValues_drop13 (r : List (String × String)) : (rowValues r).drop 13 = [] := by
  rw [← rowValues_length r]
  exact List.drop_length _

theorem rowValues_take13 (r : List (String × String)) : (rowValues r).take 13 = rowValues r := by
  rw [← rowValues_length r]
  exact List.take_length _

/-- Single-row upsert, update path: the worksheet head plus a tail whose
last `k`-row is `mid` with nothing keyed `k` after it; the upsert overwrites
the 13 schema cells of that row in place. -/
theorem upsert_on_decomposed (hrow : List String) (l1 : List (List String))
    (mid : List String) (l2 : List (List String)) (r : List (String × String))
    (hk : upsertKey (rowValues r) ≠ "")
    (hmid : indexKey mid = upsertKey (rowValues r))
    (hl2 : ∀ row ∈ l2, indexKey row ≠ upsertKey (rowValues r)) :
    upsert_rows (hrow :: (l1 ++ mid :: l2)) [r] =
      hrow :: (l1 ++ (rowValues r ++ mid.drop 13) :: l2) := by
  have e1 : List.lookup (upsertKey (rowValues r))
      (build_index (hrow :: (l1 ++ mid :: l2))) = some (l1.length + 2) := by
    rw [lookup_build_index _ _ hk]
    simp only [List.tail_cons]
    rw [lastPos_last _ l1 mid l2 hmid hl2]
  rw [upsert_rows_single _ r hk, e1]
  show applyUpdate (hrow :: (l1 ++ mid :: l2)) (l1.length + 2) (rowValues r) = _
  unfold applyUpdate
  rw [show (hrow :: (l1 ++ mid :: l2)).get? (l1.length + 2 - 1) =
      (l1 ++ mid :: l2).get? l1.length from rfl]
  rw [get?_middle]
  show (hrow :: (l1 ++ mid :: l2)).set (l1.length + 2 - 1)
      (rowValues r ++ mid.drop 13) = _
  rw [show (hrow :: (l1 ++ mid :: l2)).set (l1.length + 2 - 1)
      (rowValues r ++ mid.drop 13) =
      hrow :: ((l1 ++ mid :: l2).set l1.length (rowValues r ++ mid.drop 13)) from rfl]
  rw [set_middle]

/-- Single-row upsert, append path: nothing in the tail carries the key, so
the normalized values are appended. -/
theorem upsert_append_path (hrow : List String) (tail : List (List String))
    (r : List (String × String)) (hk : upsertKey (rowValues r) ≠ "")
    (hnone : ∀ row ∈ tail, indexKey row ≠ upsertKey (rowValues r)) :
    upsert_rows (hrow :: tail) [r] = hrow :: (tail ++ [rowValues r]) := by
  have e1 : List.lookup (upsertKey (rowValues r)) (build_index (hrow :: tail)) = none := by
    rw [lookup_build_index _ _ hk]
    simp only [List.tail_cons]
    rw [(lastPos_none_iff _ tail).mpr hnone]
  rw [upsert_rows_single _ r hk, e1]
  rfl

theorem shape_good (k : String) (vs : List String) (l1 : List (List String))
    (mid : List String) (l2 : List (List String))
    (h1 : ∀ row ∈ l1, indexKey row ≠ k) (h2 : ∀ row ∈ l2, indexKey row ≠ k)
    (hmid : indexKey mid = k) (htake : mid.take 13 = vs) :
    ((l1 ++ mid :: l2).filter (fun row => indexKey row = k)).length = 1 ∧
    (∀ row ∈ l1 ++ mid :: l2, indexKey row = k → row.take 13 = vs) := by
  refine ⟨filter_key_count k l1 mid l2 h1 h2 hmid, ?_⟩
  intro row hrow hkey
  rw [mem_key_unique k l1 mid l2 h1 h2 row hrow hkey]
  exact htake

theorem nodup_keys_middle (k : String) (l1 : List (List String))
    (mid0 mid1 : List String) (l2 : List (List String))
    (hmid0 : indexKey mid0 = k) (hmid1 : indexKey mid1 = k)
    (hnd : (((l1 ++ mid0 :: l2).map indexKey).filter (fun k' => k' ≠ "")).Nodup) :
    (((l1 ++ mid1 :: l2).map indexKey).filter (fun k' => k' ≠ "")).Nodup := by
  have e : (l1 ++ mid1 :: l2).map indexKey = (l1 ++ mid0 :: l2).map indexKey := by
    rw [List.map_append, List.map_append, List.map_cons, List.map_cons, hmid0, hmid1]
  rw [e]
  exact hnd

theorem nodup_keys_snoc (k : String) (hk : k ≠ "") (tail : List (List String))
    (vs : List String)
    (hnd : ((tail.map indexKey).filter (fun k' => k' ≠ "")).Nodup)
    (hnone : ∀ row ∈ tail, indexKey row ≠ k) (hvs : indexKey vs = k) :
    (((tail ++ [vs]).map indexKey).filter (fun k' => k' ≠ "")).Nodup := by
  rw [List.map_append, List.filter_append, List.map_cons, List.map_nil, hvs]
  simp only [List.filter_cons]
  rw [if_pos (by simpa using hk)]
  apply List.nodup_append.mpr
  refine ⟨hnd, List.nodup_singleton k, ?_⟩
  intro a ha hb
  rw [List.mem_singleton.mp hb] at ha
  obtain ⟨hmem, _⟩ := List.mem_filter.mp ha
  obtain ⟨row, hrow, hkey⟩ := List.mem_map.mp hmem
  exact hnone row hrow hkey

/-- C3: on a worksheet with a header and pairwise-distinct non-empty order
keys, upserting a normalized row with non-empty key twice leaves exactly one
data row for that key, whose 13 schema cells are the written values, and key
uniqueness holds after each of the two upserts. -/
theorem C3_upsert_idempotent_unique :
    ∀ (ws : List (List String)) (r : List (String × String)),
      ws ≠ [] →
      ((ws.tail.map indexKey).filter (fun k' => k' ≠ "")).Nodup →
      upsertKey (rowValues r) ≠ "" →
      (((upsert_rows ws [r]).tail.filter
          (fun row => indexKey row = upsertKey (rowValues r))).length = 1 ∧
       ((upsert_rows (upsert_rows ws [r]) [r]).tail.filter
          (fun row => indexKey row = upsertKey (rowValues r))).length = 1 ∧
       (∀ row ∈ (upsert_rows (upsert_rows ws [r]) [r]).tail,
          indexKey row = upsertKey (rowValues r) → row.take 13 = rowValues r) ∧
       (((upsert_rows ws [r]).tail.map indexKey).filter (fun k' => k' ≠ "")).Nodup ∧
       (((upsert_rows (upsert_rows ws [r]) [r]).tail.map indexKey).filter
          (fun k' => k' ≠ "")).Nodup) := by
  intro ws r hne hnd hk
  match ws, hne with
  | hrow :: tail, _ =>
  simp only [List.tail_cons] at hnd
  have hmidkey : indexKey (rowValues r) = upsertKey (rowValues r) := indexKey_values0 r hk
  cases hlp : lastPos tail (upsertKey (rowValues r)) with
  | none =>
    have hnone := (lastPos_none_iff _ tail).mp hlp
    have e1 : upsert_rows (hrow :: tail) [r] = hrow :: (tail ++ [rowValues r]) :=
      upsert_append_path hrow tail r hk hnone
    have e2 : upsert_rows (hrow :: (tail ++ [rowValues r])) [r] =
        hrow :: (tail ++ (rowValues r ++ (rowValues r).drop 13) :: []) := by
      have := upsert_on_decomposed hrow tail (rowValues r) [] r hk hmidkey
        (by intro row hrow2; cases hrow2)
      simpa using this
    have e2' : upsert_rows (hrow :: (tail ++ [rowValues r])) [r] =
        hrow :: (tail ++ [rowValues r]) := by
      rw [e2, rowValues_drop13, List.append_nil]
    have hshape := shape_good (upsertKey (rowValues r)) (rowValues r) tail
      (rowValues r) [] hnone (by intro row hrow2; cases hrow2) hmidkey
      (rowValues_take13 r)
    have hnodup1 := nodup_keys_snoc (upsertKey (rowValues r)) hk tail (rowValues r)
      hnd hnone hmidkey
    rw [e1, e2']
    simp only [List.tail_cons]
    have happ : tail ++ [rowValues r] = tail ++ (rowValues r) :: [] := rfl
    rw [happ]
    exact ⟨hshape.1, hshape.1, hshape.2, by simpa using hnodup1, by simpa using hnodup1⟩
  | some j =>
    obtain ⟨l1, mid0, l2, htail, hlen, hmid0, hl2⟩ := lastPos_some_split _ tail j hlp
    subst htail
    obtain ⟨hl1, _⟩ := nodup_keys_split _ hk l1 mid0 l2 hmid0 hnd
    have hmid1 : indexKey (rowValues r ++ mid0.drop 13) = upsertKey (rowValues r) :=
      indexKey_values r (mid0.drop 13) hk
    have e1 : upsert_rows (hrow :: (l1 ++ mid0 :: l2)) [r] =
        hrow :: (l1 ++ (rowValues r ++ mid0.drop 13) :: l2) :=
      upsert_on_decomposed hrow l1 mid0 l2 r hk hmid0 hl2
    have e2 : upsert_rows (hrow :: (l1 ++ (rowValues r ++ mid0.drop 13) :: l2)) [r] =
        hrow :: (l1 ++ (rowValues r ++ (rowValues r ++ mid0.drop 13).drop 13) :: l2) :=
      upsert_on_decomposed hrow l1 (rowValues r ++ mid0.drop 13) l2 r hk hmid1 hl2
    have e2' : upsert_rows (hrow :: (l1 ++ (rowValues r ++ mid0.drop 13) :: l2)) [r] =
        hrow :: (l1 ++ (rowValues r ++ mid0.drop 13) :: l2) := by
      rw [e2, drop_13_append (rowValues r) (rowValues_length r) (mid0.drop 13)]
    have hshape := shape_good (upsertKey (rowValues r)) (rowValues r) l1
      (rowValues r ++ mid0.drop 13) l2 hl1 hl2 hmid1
      (take_13_append (rowValues r) (rowValues_length r) (mid0.drop 13))
    have hnodup1 := nodup_keys_middle (upsertKey (rowValues r)) l1 mid0
      (rowValues r ++ mid0.drop 13) l2 hmid0 hmid1 hnd
    rw [e1, e2']
    simp only [List.tail_cons]
    exact ⟨hshape.1, hshape.1, hshape.2, hnodup1, hnodup1⟩

def w3_ws : List (List String) :=
  [HEADERS,
   ["'1234567890", "Completed", "01 Nov 2025 10:00", "", "", "", "", "", "", "", "", "",
    "2025-11-02T21:28:52"]]

def w3_r : List (String × String) :=
  [("Order Number", "'1234567890"), ("Order Status", "Cancelled"),
   ("Created Date", "01 Nov 2025 10:00"), ("Updated Date", "02 Nov 2025 09:00"),
   ("Name", "N"), ("Email", "E"), ("Phone Number", "P"), ("Appointment Date", "A"),
   ("Address", "Ad"), ("Package", "Pkg"), ("IC Number", "IC"), ("Creator", "Cr"),
   ("Last Synced", "2025-11-03T00:00:00")]

theorem C3_witness :
    ((upsert_rows w3_ws [w3_r]).tail.filter
        (fun row => indexKey row = upsertKey (rowValues w3_r))).length = 1 ∧
    ((upsert_rows (upsert_rows w3_ws [w3_r]) [w3_r]).tail.filter
        (fun row => indexKey row = upsertKey (rowValues w3_r))).length = 1 ∧
    (∀ row ∈ (upsert_rows (upsert_rows w3_ws [w3_r]) [w3_r]).tail,
        indexKey row = upsertKey (rowValues w3_r) → row.take 13 = rowValues w3_r) ∧
    (((upsert_rows w3_ws [w3_r]).tail.map indexKey).filter (fun k' => k' ≠ "")).Nodup ∧
    (((upsert_rows (upsert_rows w3_ws [w3_r]) [w3_r]).tail.map indexKey).filter
        (fun k' => k' ≠ "")).Nodup :=
  C3_upsert_idempotent_unique w3_ws w3_r (by decide) (by decide) (by decide)

/-! ## C10 -/

/-- C10 counterexample: `standardize_date` does not return a non-matching
input unchanged character for character — it returns the whitespace-stripped
input (`" a"` becomes `"a"`); and for a parsable date with year below 1000
the output's year is not zero-padded (`"01 Dec 0999 13:00"` becomes
`"01 Dec 999 13:00"`). -/
theorem C10_counterexample_strip :
    standardize_date " a" = "a" ∧
    " a" ≠ "" ∧
    firstParse stdFormats (pyStrip " a") = none ∧
    standardize_date " a" ≠ " a" ∧
    standardize_date "01 Dec 0999 13:00" = "01 Dec 999 13:00" ∧
    standardize_date "01 Dec 0999 13:00" ≠ "01 Dec 0999 13:00" := by
  refine ⟨by decide, by decide, by decide, by decide, by decide, by decide⟩

/-- C10 amended: `standardize_date` is total; empty input yields `""`; when
the stripped input matches one of the five accepted formats (first match
wins) the result is the `"%d %b %Y %H:%M"` rendering of the parsed date
(day, hour and minute zero-padded to two digits, year unpadded); otherwise
the result is the whitespace-stripped input. -/
theorem C10_standardize_total :
    ∀ s : String,
      (s = "" → standardize_date s = "") ∧
      (∀ dt, firstParse stdFormats (pyStrip s) = some dt →
          standardize_date s = String.mk (renderDbYHM dt)) ∧
      (firstParse stdFormats (pyStrip s) = none → standardize_date s = pyStrip s) := by
  intro s
  refine ⟨?_, ?_, ?_⟩
  · intro h
    rw [h]
    rfl
  · intro dt hdt
    by_cases hs : s = ""
    · subst hs
      have hnone : firstParse stdFormats (pyStrip "") = none := by decide
      rw [hnone] at hdt
      cases hdt
    · simp only [standardize_date]
      rw [if_neg hs, hdt]
  · intro hn
    by_cases hs : s = ""
    · subst hs
      rfl
    · simp only [standardize_date]
      rw [if_neg hs, hn]

theorem C10_witness :
    standardize_date "" = "" ∧
    standardize_date " 01 Dec 2025 13:00 " = "01 Dec 2025 13:00" ∧
    standardize_date "hello" = "hello" := by
  refine ⟨(C10_standardize_total "").1 rfl, ?_, ?_⟩
  · have h := (C10_standardize_total " 01 Dec 2025 13:00 ").2.1 ⟨2025, 12, 1, 13, 0, 0⟩
      (by decide)
    rw [h]
    decide
  · have h := (C10_standardize_total "hello").2.2 (by decide)
    rw [h]
    decide

/-! ## C4 -/

def c4_detail : OrderDetail := ⟨"N", "E", "P", "A", "Addr", "Pkg", "IC", "Cr"⟩

def c4_env : ScrapeEnv :=
  ⟨fun oid => if oid = "2025103100001" || oid = "2025103100003" then some c4_detail else none,
   "2025-11-02T21:28:52"⟩

def c4_completeRow (oid : String) : List String :=
  [oid, "Completed", "31 Oct 2025 14:29", "", "", "", "", "", "", "", "", "",
   "2025-11-02T21:28:52"]

def c4_oldIds : List String :=
  ["2025103100011", "2025103100012", "2025103100013", "2025103100014", "2025103100015",
   "2025103100016", "2025103100017", "2025103100018", "2025103100019"]

def c4_ws : List (List String) := HEADERS :: c4_oldIds.map c4_completeRow

def c4_pages : List UiPage :=
  [⟨[["2025103100001"]], false⟩,
   ⟨c4_oldIds.map (fun i => [i]), false⟩,
   ⟨[["2025103100003"]], true⟩]

def c4_st0 : SyncState :=
  ⟨(check_existing c4_ws).1, (check_existing c4_ws).2, [], c4_ws, [], 0, 0, 0, false⟩

/-- State at the page-2 early-exit checkpoint (rows of pages 1 and 2
processed, right where lines 1012–1023 run with `page_number = 2`). -/
def c4_mid : SyncState := runPages false c4_env (c4_pages.take 2) 1 c4_st0

def c4_run : SyncState := scrape_month_sheets false c4_env c4_ws c4_pages

/-- C4 (code bug): an incremental run in which, at the page-2 checkpoint,
9 of 10 recent orders were skipped — a 90 % skip ratio, over the claimed
80 % threshold — yet the early exit does not fire and pagination continues
(the page-3 order is still fetched), because `found_old_order` is
initialized `False` at line 573 and never set anywhere, so the guard at
line 1013 can never hold.  In full-sync mode the guard is also false, which
is the one part of the claim the code does satisfy. -/
theorem C4_early_exit_never_fires :
    c4_mid.skippedCount = 9 ∧ c4_mid.totalScraped = 1 ∧
    10 * c4_mid.skippedCount > 8 * max 1 (c4_mid.totalScraped + c4_mid.skippedCount) ∧
    c4_mid.foundOldOrder = false ∧
    earlyExitCond false c4_mid 2 = false ∧
    c4_run.fetched = ["2025103100001", "2025103100003"] ∧
    (∀ (st : SyncState) (n : Nat), earlyExitCond true st n = false) := by
  refine ⟨by decide, by decide, by decide, by decide, by decide, by decide, ?_⟩
  intro st n
  unfold earlyExitCond
  simp


/-! ## C7 -/

theorem strptime_valid {toks : List Tok} {s : String} {dt : PyDateTime}
    (h : strptime toks s = some dt) : validDateTime dt = true := by
  unfold strptime at h
  split at h
  · cases h
  · split at h
    · simp only [] at h
      split at h
      · obtain rfl := Option.some.inj h
        assumption
      · cases h
    · cases h

theorem daysInMonth_le (y m : Nat) : daysInMonth y m ≤ 31 := by
  unfold daysInMonth
  split_ifs <;> omega

theorem validDateTime_bounds {dt : PyDateTime} (h : validDateTime dt = true) :
    1 ≤ dt.year ∧ dt.year ≤ 9999 ∧ 1 ≤ dt.month ∧ dt.month ≤ 12 ∧
    1 ≤ dt.day ∧ dt.day ≤ 31 ∧ dt.hour ≤ 23 ∧ dt.minute ≤ 59 := by
  unfold validDateTime at h
  simp only [Bool.and_eq_true, decide_eq_true_eq] at h
  have hdm := daysInMonth_le dt.year dt.month
  omega

theorem format_datetime_eq {s : String} {dt : PyDateTime} (hlen : s.length = 14)
    (hp : strptime fmtYmdHMS s = some dt) :
    format_datetime s = String.mk (renderDbYHM dt) := by
  have hsne : ¬ s = "" := by
    intro h
    rw [h] at hlen
    exact absurd hlen (by decide)
  unfold format_datetime
  rw [if_neg (by simp [hsne, hlen]), hp]

theorem matchToks_step {t : Tok} {ts : List Tok} {s : List Char} {acc : ParseAcc}
    {v : Nat} {r : List Char} {cjunk : List (Nat × List Char)}
    {out : ParseAcc × List Char} {mjunk : List (ParseAcc × List Char)}
    (h1 : cand t s = (v, r) :: cjunk)
    (h2 : matchToks ts r (updAcc acc t v) = out :: mjunk) :
    ∃ junk, matchToks (t :: ts) s acc = out :: junk := by
  refine ⟨mjunk ++ cjunk.flatMap (fun vr => matchToks ts vr.2 (updAcc acc t vr.1)), ?_⟩
  show (cand t s).flatMap (fun vr => matchToks ts vr.2 (updAcc acc t vr.1)) = _
  rw [h1, List.flatMap_cons, h2, List.cons_append]

theorem digitChar_digit : ∀ {k : Nat}, k < 10 →
    isDigitC (Nat.digitChar k) = true ∧ dval (Nat.digitChar k) = k := by
  intro k h
  interval_cases k <;> exact ⟨rfl, rfl⟩

theorem digitChar_star {k : Nat} (h : 16 ≤ k) : Nat.digitChar k = '*' := by
  unfold Nat.digitChar
  iterate 16 rw [if_neg (by omega)]

theorem digitChar_ne_colon (k : Nat) : Nat.digitChar k ≠ ':' := by
  by_cases h : k < 16
  · interval_cases k <;> decide
  · rw [digitChar_star (by omega)]
    decide

theorem digitChar_not_space (k : Nat) : isSpaceC (Nat.digitChar k) = false := by
  by_cases h : k < 16
  · interval_cases k <;> decide
  · rw [digitChar_star (by omega)]
    decide

theorem pad2_head (n : Nat) :
    ∃ c cs, pad2 n = c :: cs ∧ isSpaceC c = false ∧ c ≠ ':' := by
  unfold pad2
  by_cases h : n < 10
  · rw [if_pos h]
    exact ⟨'0', _, rfl, rfl, by decide⟩
  · rw [if_neg h]
    exact ⟨_, _, rfl, digitChar_not_space _, digitChar_ne_colon _⟩

theorem monthChars_head : ∀ {m : Nat}, 1 ≤ m → m ≤ 12 →
    ∃ c cs, monthChars m = c :: cs ∧ isSpaceC c = false ∧ c ≠ ':' := by
  intro m h1 h2
  interval_cases m <;> exact ⟨_, _, rfl, rfl, by decide⟩

theorem candD_shape : ∀ {d : Nat}, 1 ≤ d → d ≤ 31 → ∀ rest : List Char,
    ∃ junk, candD (pad2 d ++ rest) = (d, rest) :: junk := by
  intro d h1 h2 rest
  interval_cases d <;> exact ⟨_, rfl⟩

theorem candH_shape : ∀ {h : Nat}, h ≤ 23 → ∀ rest : List Char,
    ∃ junk, candH (pad2 h ++ rest) = (h, rest) :: junk := by
  intro h hb rest
  interval_cases h <;> exact ⟨_, rfl⟩

theorem candMin_shape : ∀ {mi : Nat}, mi ≤ 59 → ∀ rest : List Char,
    ∃ junk, candMin (pad2 mi ++ rest) = (mi, rest) :: junk := by
  intro mi hb rest
  interval_cases mi <;> exact ⟨_, rfl⟩

theorem candB_month : ∀ {m : Nat}, 1 ≤ m → m ≤ 12 → ∀ rest : List Char,
    candB (monthChars m ++ rest) = [(m, rest)] := by
  intro m h1 h2 rest
  interval_cases m <;> rfl

theorem yearChars_four {y : Nat} (h1 : 1000 ≤ y) (h2 : y ≤ 9999) :
    yearChars y = [Nat.digitChar (y / 1000), Nat.digitChar (y / 100 % 10),
      Nat.digitChar (y / 10 % 10), Nat.digitChar (y % 10)] := by
  unfold yearChars
  rw [if_neg (by omega), if_neg (by omega), if_neg (by omega), if_pos (by omega)]

theorem candY_shape {y : Nat} (h1 : 1000 ≤ y) (h2 : y ≤ 9999) (rest : List Char) :
    candY (yearChars y ++ rest) = [(y, rest)] := by
  rw [yearChars_four h1 h2]
  have d1 := @digitChar_digit (y / 1000) (by omega)
  have d2 := @digitChar_digit (y / 100 % 10) (by omega)
  have d3 := @digitChar_digit (y / 10 % 10) (by omega)
  have d4 := @digitChar_digit (y % 10) (by omega)
  show (if (isDigitC (Nat.digitChar (y / 1000)) && isDigitC (Nat.digitChar (y / 100 % 10)) &&
        isDigitC (Nat.digitChar (y / 10 % 10)) && isDigitC (Nat.digitChar (y % 10))) = true
      then [(1000 * dval (Nat.digitChar (y / 1000)) + 100 * dval (Nat.digitChar (y / 100 % 10)) +
        10 * dval (Nat.digitChar (y / 10 % 10)) + dval (Nat.digitChar (y % 10)), rest)]
      else []) = [(y, rest)]
  rw [if_pos (by rw [d1.1, d2.1, d3.1, d4.1]; rfl)]
  simp only [List.cons.injEq, Prod.mk.injEq, and_true]
  rw [d1.2, d2.2, d3.2, d4.2]
  omega

theorem candWS_shape (c : Char) (hc : isSpaceC c = false) (rest : List Char) :
    cand Tok.ws (' ' :: c :: rest) = [(0, c :: rest)] := by
  show (candWS (' ' :: c :: rest)).map (fun r => (0, r)) = _
  unfold candWS
  rw [if_pos (by decide)]
  unfold candWS
  rw [if_neg (by rw [hc]; exact Bool.false_ne_true)]
  rfl

theorem candLit_colon (rest : List Char) :
    cand (Tok.lit ':') (':' :: rest) = [(0, rest)] := by
  show (if (':' : Char) = ':' then [((0 : Nat), rest)] else []) = [(0, rest)]
  rw [if_pos rfl]



theorem validDateTime_trunc {dt : PyDateTime} (hv : validDateTime dt = true) :
    validDateTime ⟨dt.year, dt.month, dt.day, dt.hour, dt.minute, 0⟩ = true := by
  simp only [validDateTime, Bool.and_eq_true, decide_eq_true_eq] at hv ⊢
  omega

theorem strptime_of_matchToks {toks : List Tok} {s : String} {acc : ParseAcc}
    {j : List (ParseAcc × List Char)}
    (hm : matchToks toks s.toList accInit = (acc, []) :: j)
    (hv : validDateTime ⟨acc.y, acc.mo, acc.d, acc.h, acc.mi, acc.s⟩ = true) :
    strptime toks s = some ⟨acc.y, acc.mo, acc.d, acc.h, acc.mi, acc.s⟩ := by
  unfold strptime
  rw [hm]
  show (if ([] : List Char).isEmpty = true then
      if validDateTime ⟨acc.y, acc.mo, acc.d, acc.h, acc.mi, acc.s⟩ = true then
        some (⟨acc.y, acc.mo, acc.d, acc.h, acc.mi, acc.s⟩ : PyDateTime)
      else none
    else none) = some ⟨acc.y, acc.mo, acc.d, acc.h, acc.mi, acc.s⟩
  rw [if_pos (show ([] : List Char).isEmpty = true from rfl), if_pos hv]

theorem strptime_render_DbYHM {dt : PyDateTime}
    (hv : validDateTime dt = true) (hy : 1000 ≤ dt.year) :
    strptime fmtDbYHM (String.mk (renderDbYHM dt)) =
      some ⟨dt.year, dt.month, dt.day, dt.hour, dt.minute, 0⟩ := by
  obtain ⟨hy1, hy2, hm1, hm2, hd1, hd2, hh, hmi⟩ := validDateTime_bounds hv
  obtain ⟨mc, mcs, hmon, hmcs, hmccol⟩ := monthChars_head hm1 hm2
  obtain ⟨hc, hcs, hpadh, hhcs, hhccol⟩ := pad2_head dt.hour
  have hyc := yearChars_four hy hy2
  -- step 9: empty token list on the exhausted input
  have m9 : matchToks ([] : List Tok) []
      ⟨dt.year, dt.month, dt.day, dt.hour, dt.minute, 0⟩ =
      (⟨dt.year, dt.month, dt.day, dt.hour, dt.minute, 0⟩, ([] : List Char)) :: [] := rfl
  -- step 8: %M consumes the final two digits
  obtain ⟨cj8, c8⟩ := candMin_shape hmi []
  rw [List.append_nil] at c8
  have c8' : cand Tok.MM (pad2 dt.minute) = (dt.minute, ([] : List Char)) :: cj8 := c8
  obtain ⟨j8, m8⟩ := @matchToks_step Tok.MM [] (pad2 dt.minute)
    ⟨dt.year, dt.month, dt.day, dt.hour, 0, 0⟩ dt.minute [] cj8
    (⟨dt.year, dt.month, dt.day, dt.hour, dt.minute, 0⟩, []) [] c8' m9
  -- step 7: the colon literal
  have c7 : cand (Tok.lit ':') (':' :: pad2 dt.minute) = (0, pad2 dt.minute) :: [] :=
    candLit_colon _
  obtain ⟨j7, m7⟩ := @matchToks_step (Tok.lit ':') [Tok.MM] (':' :: pad2 dt.minute)
    ⟨dt.year, dt.month, dt.day, dt.hour, 0, 0⟩ 0 (pad2 dt.minute) []
    (⟨dt.year, dt.month, dt.day, dt.hour, dt.minute, 0⟩, []) j8 c7 m8
  -- step 6: %H
  obtain ⟨cj6, c6⟩ := candH_shape hh (':' :: pad2 dt.minute)
  have c6' : cand Tok.HH (pad2 dt.hour ++ (':' :: pad2 dt.minute)) =
      (dt.hour, ':' :: pad2 dt.minute) :: cj6 := c6
  obtain ⟨j6, m6⟩ := @matchToks_step Tok.HH [Tok.lit ':', Tok.MM]
    (pad2 dt.hour ++ (':' :: pad2 dt.minute))
    ⟨dt.year, dt.month, dt.day, 0, 0, 0⟩ dt.hour (':' :: pad2 dt.minute) cj6
    (⟨dt.year, dt.month, dt.day, dt.hour, dt.minute, 0⟩, []) j7 c6' m7
  -- step 5: the whitespace before %H
  have hsplitH : pad2 dt.hour ++ (':' :: pad2 dt.minute) =
      hc :: (hcs ++ (':' :: pad2 dt.minute)) := by
    rw [hpadh]
    rfl
  have c5 : cand Tok.ws (' ' :: (pad2 dt.hour ++ (':' :: pad2 dt.minute))) =
      (0, pad2 dt.hour ++ (':' :: pad2 dt.minute)) :: [] := by
    rw [hsplitH]
    exact candWS_shape hc hhcs _
  obtain ⟨j5, m5⟩ := @matchToks_step Tok.ws [Tok.HH, Tok.lit ':', Tok.MM]
    (' ' :: (pad2 dt.hour ++ (':' :: pad2 dt.minute)))
    ⟨dt.year, dt.month, dt.day, 0, 0, 0⟩ 0 (pad2 dt.hour ++ (':' :: pad2 dt.minute)) []
    (⟨dt.year, dt.month, dt.day, dt.hour, dt.minute, 0⟩, []) j6 c5 m6
  -- step 4: %Y
  have c4 : cand Tok.YY (yearChars dt.year ++
      (' ' :: (pad2 dt.hour ++ (':' :: pad2 dt.minute)))) =
      (dt.year, ' ' :: (pad2 dt.hour ++ (':' :: pad2 dt.minute))) :: [] :=
    candY_shape hy hy2 _
  obtain ⟨j4, m4⟩ := @matchToks_step Tok.YY [Tok.ws, Tok.HH, Tok.lit ':', Tok.MM]
    (yearChars dt.year ++ (' ' :: (pad2 dt.hour ++ (':' :: pad2 dt.minute))))
    ⟨1900, dt.month, dt.day, 0, 0, 0⟩ dt.year
    (' ' :: (pad2 dt.hour ++ (':' :: pad2 dt.minute))) []
    (⟨dt.year, dt.month, dt.day, dt.hour, dt.minute, 0⟩, []) j5 c4 m5
  -- step 3: the whitespace before %Y
  have hsplitY : yearChars dt.year ++
      (' ' :: (pad2 dt.hour ++ (':' :: pad2 dt.minute))) =
      Nat.digitChar (dt.year / 1000) ::
        ([Nat.digitChar (dt.year / 100 % 10), Nat.digitChar (dt.year / 10 % 10),
          Nat.digitChar (dt.year % 10)] ++
          (' ' :: (pad2 dt.hour ++ (':' :: pad2 dt.minute)))) := by
    rw [hyc]
    rfl
  have c3 : cand Tok.ws (' ' :: (yearChars dt.year ++
      (' ' :: (pad2 dt.hour ++ (':' :: pad2 dt.minute))))) =
      (0, yearChars dt.year ++ (' ' :: (pad2 dt.hour ++ (':' :: pad2 dt.minute)))) :: [] := by
    rw [hsplitY]
    exact candWS_shape _ (digitChar_not_space _) _
  obtain ⟨j3, m3⟩ := @matchToks_step Tok.ws [Tok.YY, Tok.ws, Tok.HH, Tok.lit ':', Tok.MM]
    (' ' :: (yearChars dt.year ++ (' ' :: (pad2 dt.hour ++ (':' :: pad2 dt.minute)))))
    ⟨1900, dt.month, dt.day, 0, 0, 0⟩ 0
    (yearChars dt.year ++ (' ' :: (pad2 dt.hour ++ (':' :: pad2 dt.minute)))) []
    (⟨dt.year, dt.month, dt.day, dt.hour, dt.minute, 0⟩, []) j4 c3 m4
  -- step 2: %b
  have c2 : cand Tok.mon (monthChars dt.month ++
      (' ' :: (yearChars dt.year ++ (' ' :: (pad2 dt.hour ++ (':' :: pad2 dt.minute)))))) =
      (dt.month, ' ' :: (yearChars dt.year ++
        (' ' :: (pad2 dt.hour ++ (':' :: pad2 dt.minute))))) :: [] :=
    candB_month hm1 hm2 _
  obtain ⟨j2, m2⟩ := @matchToks_step Tok.mon
    [Tok.ws, Tok.YY, Tok.ws, Tok.HH, Tok.lit ':', Tok.MM]
    (monthChars dt.month ++
      (' ' :: (yearChars dt.year ++ (' ' :: (pad2 dt.hour ++ (':' :: pad2 dt.minute))))))
    ⟨1900, 1, dt.day, 0, 0, 0⟩ dt.month
    (' ' :: (yearChars dt.year ++ (' ' :: (pad2 dt.hour ++ (':' :: pad2 dt.minute))))) []
    (⟨dt.year, dt.month, dt.day, dt.hour, dt.minute, 0⟩, []) j3 c2 m3
  -- step 1: the whitespace before %b
  have hsplitM : monthChars dt.month ++
      (' ' :: (yearChars dt.year ++ (' ' :: (pad2 dt.hour ++ (':' :: pad2 dt.minute))))) =
      mc :: (mcs ++ (' ' :: (yearChars dt.year ++
        (' ' :: (pad2 dt.hour ++ (':' :: pad2 dt.minute)))))) := by
    rw [hmon]
    rfl
  have c1 : cand Tok.ws (' ' :: (monthChars dt.month ++
      (' ' :: (yearChars dt.year ++ (' ' :: (pad2 dt.hour ++ (':' :: pad2 dt.minute))))))) =
      (0, monthChars dt.month ++
        (' ' :: (yearChars dt.year ++ (' ' :: (pad2 dt.hour ++ (':' :: pad2 dt.minute)))))) :: [] := by
    rw [hsplitM]
    exact candWS_shape mc hmcs _
  obtain ⟨j1, m1⟩ := @matchToks_step Tok.ws
    [Tok.mon, Tok.ws, Tok.YY, Tok.ws, Tok.HH, Tok.lit ':', Tok.MM]
    (' ' :: (monthChars dt.month ++
      (' ' :: (yearChars dt.year ++ (' ' :: (pad2 dt.hour ++ (':' :: pad2 dt.minute)))))))
    ⟨1900, 1, dt.day, 0, 0, 0⟩ 0
    (monthChars dt.month ++
      (' ' :: (yearChars dt.year ++ (' ' :: (pad2 dt.hour ++ (':' :: pad2 dt.minute)))))) []
    (⟨dt.year, dt.month, dt.day, dt.hour, dt.minute, 0⟩, []) j2 c1 m2
  -- step 0: %d
  obtain ⟨cj0, c0⟩ := candD_shape hd1 hd2
    (' ' :: (monthChars dt.month ++
      (' ' :: (yearChars dt.year ++ (' ' :: (pad2 dt.hour ++ (':' :: pad2 dt.minute)))))))
  have c0' : cand Tok.dd (pad2 dt.day ++
      (' ' :: (monthChars dt.month ++
        (' ' :: (yearChars dt.year ++ (' ' :: (pad2 dt.hour ++ (':' :: pad2 dt.minute)))))))) =
      (dt.day, ' ' :: (monthChars dt.month ++
        (' ' :: (yearChars dt.year ++ (' ' :: (pad2 dt.hour ++ (':' :: pad2 dt.minute))))))) :: cj0 :=
    c0
  obtain ⟨j0, m0⟩ := @matchToks_step Tok.dd
    [Tok.ws, Tok.mon, Tok.ws, Tok.YY, Tok.ws, Tok.HH, Tok.lit ':', Tok.MM]
    (pad2 dt.day ++
      (' ' :: (monthChars dt.month ++
        (' ' :: (yearChars dt.year ++ (' ' :: (pad2 dt.hour ++ (':' :: pad2 dt.minute))))))))
    accInit dt.day
    (' ' :: (monthChars dt.month ++
      (' ' :: (yearChars dt.year ++ (' ' :: (pad2 dt.hour ++ (':' :: pad2 dt.minute))))))) cj0
    (⟨dt.year, dt.month, dt.day, dt.hour, dt.minute, 0⟩, []) j1 c0' m1
  -- assemble
  have htl : (String.mk (renderDbYHM dt)).toList =
      pad2 dt.day ++
        (' ' :: (monthChars dt.month ++
          (' ' :: (yearChars dt.year ++ (' ' :: (pad2 dt.hour ++ (':' :: pad2 dt.minute))))))) := by
    show renderDbYHM dt = _
    unfold renderDbYHM
    simp [List.append_assoc]
  have hm0 : matchToks fmtDbYHM (String.mk (renderDbYHM dt)).toList accInit =
      (⟨dt.year, dt.month, dt.day, dt.hour, dt.minute, 0⟩, ([] : List Char)) :: j0 := by
    rw [htl]
    exact m0
  exact strptime_of_matchToks hm0 (validDateTime_trunc hv)



/-! fmt `%d %b %Y %H:%M:%S` cannot match the rendered string: every token
except a `':'` literal consumes no colon, the format demands two colons, and
the rendering contains exactly one. -/

theorem count_colon_drop1 {c : Char} (h : c ≠ ':') (l : List Char) :
    List.count ':' (c :: l) = List.count ':' l :=
  List.count_cons_of_ne (Ne.symm h) l

theorem char_digit_ne_colon {c : Char} (h : isDigitC c = true) : c ≠ ':' := by
  intro he
  subst he
  exact absurd h (by decide)

theorem char_le9_ne_colon {c : Char} (h : c ≤ '9') : c ≠ ':' := by
  intro he
  subst he
  exact absurd h (by decide)

theorem candD_count {s : List Char} {vr : Nat × List Char} (hm : vr ∈ candD s) :
    List.count ':' s = List.count ':' vr.2 := by
  unfold candD at hm
  simp only [List.mem_append] at hm
  rcases hm with ((((hm | hm) | hm) | hm) | hm)
  · split at hm
    · rename_i c r
      split at hm
      · rename_i hcond
        rw [List.mem_singleton.mp hm]
        rw [count_colon_drop1 (by decide)]
        have h1 : c = '0' ∨ c = '1' := by simpa using hcond
        rcases h1 with h1 | h1 <;> (subst h1; rw [count_colon_drop1 (by decide)])
      · cases hm
    · cases hm
  · split at hm
    · rename_i c1 c2 r
      split at hm
      · rename_i hcond
        rw [List.mem_singleton.mp hm]
        simp only [Bool.and_eq_true, Bool.or_eq_true, decide_eq_true_eq] at hcond
        rw [count_colon_drop1 (by rcases hcond.1 with h | h <;> (subst h; decide))]
        rw [count_colon_drop1 (char_digit_ne_colon hcond.2)]
      · cases hm
    · cases hm
  · split at hm
    · rename_i c r
      split at hm
      · rename_i hcond
        rw [List.mem_singleton.mp hm]
        simp only [Bool.and_eq_true, decide_eq_true_eq] at hcond
        rw [count_colon_drop1 (by decide)]
        rw [count_colon_drop1 (char_le9_ne_colon hcond.2)]
      · cases hm
    · cases hm
  · split at hm
    · rename_i c r
      split at hm
      · rename_i hcond
        rw [List.mem_singleton.mp hm]
        simp only [Bool.and_eq_true, decide_eq_true_eq] at hcond
        rw [count_colon_drop1 (char_le9_ne_colon hcond.2)]
      · cases hm
    · cases hm
  · split at hm
    · rename_i c r
      split at hm
      · rename_i hcond
        rw [List.mem_singleton.mp hm]
        simp only [Bool.and_eq_true, decide_eq_true_eq] at hcond
        rw [count_colon_drop1 (by decide)]
        rw [count_colon_drop1 (char_le9_ne_colon hcond.2)]
      · cases hm
    · cases hm

theorem candM_count {s : List Char} {vr : Nat × List Char} (hm : vr ∈ candM s) :
    List.count ':' s = List.count ':' vr.2 := by
  unfold candM at hm
  simp only [List.mem_append] at hm
  rcases hm with ((hm | hm) | hm)
  · split at hm
    · rename_i c r
      split at hm
      · rename_i hcond
        rw [List.mem_singleton.mp hm]
        rw [count_colon_drop1 (by decide)]
        simp only [Bool.or_eq_true, decide_eq_true_eq] at hcond
        rcases hcond with (h | h) | h <;> (subst h; rw [count_colon_drop1 (by decide)])
      · cases hm
    · cases hm
  · split at hm
    · rename_i c r
      split at hm
      · rename_i hcond
        rw [List.mem_singleton.mp hm]
        simp only [Bool.and_eq_true, decide_eq_true_eq] at hcond
        rw [count_colon_drop1 (by decide)]
        rw [count_colon_drop1 (char_le9_ne_colon hcond.2)]
      · cases hm
    · cases hm
  · split at hm
    · rename_i c r
      split at hm
      · rename_i hcond
        rw [List.mem_singleton.mp hm]
        simp only [Bool.and_eq_true, decide_eq_true_eq] at hcond
        rw [count_colon_drop1 (char_le9_ne_colon hcond.2)]
      · cases hm
    · cases hm

theorem candH_count {s : List Char} {vr : Nat × List Char} (hm : vr ∈ candH s) :
    List.count ':' s = List.count ':' vr.2 := by
  unfold candH at hm
  simp only [List.mem_append] at hm
  rcases hm with ((hm | hm) | hm)
  · split at hm
    · rename_i c r
      split at hm
      · rename_i hcond
        rw [List.mem_singleton.mp hm]
        simp only [Bool.and_eq_true, decide_eq_true_eq] at hcond
        rw [count_colon_drop1 (by decide)]
        rw [count_colon_drop1 (char_le9_ne_colon (le_trans hcond.2 (by decide)))]
      · cases hm
    · cases hm
  · split at hm
    · rename_i c1 c2 r
      split at hm
      · rename_i hcond
        rw [List.mem_singleton.mp hm]
        simp only [Bool.and_eq_true, Bool.or_eq_true, decide_eq_true_eq] at hcond
        rw [count_colon_drop1 (by rcases hcond.1 with h | h <;> (subst h; decide))]
        rw [count_colon_drop1 (char_digit_ne_colon hcond.2)]
      · cases hm
    · cases hm
  · split at hm
    · rename_i c r
      split at hm
      · rename_i hcond
        rw [List.mem_singleton.mp hm]
        rw [count_colon_drop1 (char_digit_ne_colon (by simpa using hcond))]
      · cases hm
    · cases hm

theorem candMin_count {s : List Char} {vr : Nat × List Char} (hm : vr ∈ candMin s) :
    List.count ':' s = List.count ':' vr.2 := by
  unfold candMin at hm
  simp only [List.mem_append] at hm
  rcases hm with (hm | hm)
  · split at hm
    · rename_i c1 c2 r
      split at hm
      · rename_i hcond
        rw [List.mem_singleton.mp hm]
        simp only [Bool.and_eq_true, decide_eq_true_eq] at hcond
        rw [count_colon_drop1 (char_le9_ne_colon (le_trans hcond.1.2 (by decide)))]
        rw [count_colon_drop1 (char_digit_ne_colon hcond.2)]
      · cases hm
    · cases hm
  · split at hm
    · rename_i c r
      split at hm
      · rename_i hcond
        rw [List.mem_singleton.mp hm]
        rw [count_colon_drop1 (char_digit_ne_colon (by simpa using hcond))]
      · cases hm
    · cases hm

theorem candSec_count {s : List Char} {vr : Nat × List Char} (hm : vr ∈ candSec s) :
    List.count ':' s = List.count ':' vr.2 := by
  unfold candSec at hm
  simp only [List.mem_append] at hm
  rcases hm with ((hm | hm) | hm)
  · split at hm
    · rename_i c r
      split at hm
      · rename_i hcond
        rw [List.mem_singleton.mp hm]
        rw [count_colon_drop1 (by decide)]
        simp only [Bool.or_eq_true, decide_eq_true_eq] at hcond
        rcases hcond with h | h <;> (subst h; rw [count_colon_drop1 (by decide)])
      · cases hm
    · cases hm
  · split at hm
    · rename_i c1 c2 r
      split at hm
      · rename_i hcond
        rw [List.mem_singleton.mp hm]
        simp only [Bool.and_eq_true, decide_eq_true_eq] at hcond
        rw [count_colon_drop1 (char_le9_ne_colon (le_trans hcond.1.2 (by decide)))]
        rw [count_colon_drop1 (char_digit_ne_colon hcond.2)]
      · cases hm
    · cases hm
  · split at hm
    · rename_i c r
      split at hm
      · rename_i hcond
        rw [List.mem_singleton.mp hm]
        rw [count_colon_drop1 (char_digit_ne_colon (by simpa using hcond))]
      · cases hm
    · cases hm

theorem candY_count {s : List Char} {vr : Nat × List Char} (hm : vr ∈ candY s) :
    List.count ':' s = List.count ':' vr.2 := by
  unfold candY at hm
  split at hm
  · rename_i a b c e r
    split at hm
    · rename_i hcond
      rw [List.mem_singleton.mp hm]
      simp only [Bool.and_eq_true] at hcond
      rw [count_colon_drop1 (char_digit_ne_colon hcond.1.1.1)]
      rw [count_colon_drop1 (char_digit_ne_colon hcond.1.1.2)]
      rw [count_colon_drop1 (char_digit_ne_colon hcond.1.2)]
      rw [count_colon_drop1 (char_digit_ne_colon hcond.2)]
    · cases hm
  · cases hm

theorem ne_colon_of_toLower {x lc : Char} (hlc : x.toLower = lc) (hne : lc ≠ ':') :
    x ≠ ':' := by
  intro hx
  subst hx
  have hcl : (':' : Char).toLower = ':' := by decide
  rw [hcl] at hlc
  exact hne hlc.symm


theorem count_tail_le (c : Char) (l : List Char) :
    List.count ':' l ≤ List.count ':' (c :: l) := by
  by_cases h : c = ':'
  · subst h
    rw [List.count_cons_self]
    omega
  · rw [count_colon_drop1 h]

theorem candB_count {s : List Char} {vr : Nat × List Char} (hm : vr ∈ candB s) :
    List.count ':' vr.2 ≤ List.count ':' s := by
  unfold candB at hm
  split at hm
  · rename_i a b c r
    split at hm
    · rw [List.mem_singleton.mp hm]
      calc List.count ':' r ≤ List.count ':' (c :: r) := count_tail_le c r
        _ ≤ List.count ':' (b :: c :: r) := count_tail_le b _
        _ ≤ List.count ':' (a :: b :: c :: r) := count_tail_le a _
    · cases hm
  · cases hm

theorem candWS_count : ∀ {s r : List Char}, r ∈ candWS s →
    List.count ':' r ≤ List.count ':' s := by
  intro s
  induction s with
  | nil => intro r hr; cases hr
  | cons c cs ih =>
    intro r hr
    unfold candWS at hr
    split at hr
    · rcases List.mem_append.mp hr with h | h
      · exact le_trans (ih h) (count_tail_le c cs)
      · rw [List.mem_singleton.mp h]
        exact count_tail_le c cs
    · cases hr

/-- Number of `':'` literal tokens in a format. -/
def colonLits : List Tok → Nat
  | [] => 0
  | t :: ts => (if t = Tok.lit ':' then 1 else 0) + colonLits ts



theorem cand_count {t : Tok} {s : List Char} {vr : Nat × List Char}
    (hm : vr ∈ cand t s) :
    List.count ':' vr.2 + (if t = Tok.lit ':' then 1 else 0) ≤ List.count ':' s := by
  cases t with
  | dd =>
    have h := candD_count hm
    rw [if_neg (by decide)]
    omega
  | mm =>
    have h := candM_count hm
    rw [if_neg (by decide)]
    omega
  | HH =>
    have h := candH_count hm
    rw [if_neg (by decide)]
    omega
  | MM =>
    have h := candMin_count hm
    rw [if_neg (by decide)]
    omega
  | SS =>
    have h := candSec_count hm
    rw [if_neg (by decide)]
    omega
  | YY =>
    have h := candY_count hm
    rw [if_neg (by decide)]
    omega
  | mon =>
    have h := candB_count hm
    rw [if_neg (by decide)]
    omega
  | ws =>
    rw [if_neg (by decide)]
    have hm' : vr ∈ (candWS s).map (fun r => ((0 : Nat), r)) := hm
    obtain ⟨r, hr, rfl⟩ := List.mem_map.mp hm'
    have h := candWS_count hr
    show List.count ':' r + 0 ≤ List.count ':' s
    omega
  | lit c =>
    have hm' : vr ∈ (match s with
        | c' :: r => if c' = c then [((0 : Nat), r)] else []
        | _ => []) := hm
    split at hm'
    · rename_i c' r
      split at hm'
      · rename_i hcc
        subst hcc
        obtain rfl := List.mem_singleton.mp hm'
        show List.count ':' r + (if Tok.lit c' = Tok.lit ':' then 1 else 0) ≤
          List.count ':' (c' :: r)
        by_cases hc : c' = ':'
        · subst hc
          rw [if_pos rfl, List.count_cons_self]
        · rw [if_neg (fun h => hc (Tok.lit.inj h)), count_colon_drop1 hc]
          omega
      · cases hm'
    · cases hm'

theorem matchToks_count : ∀ {toks : List Tok} {s : List Char} {acc : ParseAcc}
    {p : ParseAcc × List Char}, p ∈ matchToks toks s acc →
    List.count ':' p.2 + colonLits toks ≤ List.count ':' s := by
  intro toks
  induction toks with
  | nil =>
    intro s acc p hp
    obtain rfl : p = (acc, s) := List.mem_singleton.mp hp
    show List.count ':' s + 0 ≤ List.count ':' s
    omega
  | cons t ts ih =>
    intro s acc p hp
    have hp' : p ∈ (cand t s).flatMap
        (fun vr => matchToks ts vr.2 (updAcc acc t vr.1)) := hp
    obtain ⟨vr, hvr, hpm⟩ := List.mem_flatMap.mp hp'
    have h1 := cand_count hvr
    have h2 := ih hpm
    show List.count ':' p.2 + ((if t = Tok.lit ':' then 1 else 0) + colonLits ts) ≤
      List.count ':' s
    omega

/-- A format demanding more `':'` literals than the input has colons cannot
match at all (every token either consumes its own colon or no colon). -/
theorem strptime_count_none {toks : List Tok} {s : String}
    (h : List.count ':' s.toList < colonLits toks) :
    strptime toks s = none := by
  unfold strptime
  split
  · rfl
  · rename_i acc rest tail heq
    have hmem : (acc, rest) ∈ matchToks toks s.toList accInit := by
      rw [heq]
      exact List.mem_cons_self _ _
    have hcnt := matchToks_count hmem
    exact absurd hcnt (by omega)

theorem count_pad2 (n : Nat) : List.count ':' (pad2 n) = 0 := by
  unfold pad2
  split
  · rw [count_colon_drop1 (by decide), count_colon_drop1 (digitChar_ne_colon n)]
    rfl
  · rw [count_colon_drop1 (digitChar_ne_colon _), count_colon_drop1 (digitChar_ne_colon _)]
    rfl

theorem count_monthChars : ∀ {m : Nat}, 1 ≤ m → m ≤ 12 →
    List.count ':' (monthChars m) = 0 := by
  intro m h1 h2
  interval_cases m <;> rfl

theorem count_yearChars {y : Nat} (h : y < 10000) :
    List.count ':' (yearChars y) = 0 := by
  unfold yearChars
  split_ifs with h1 h2 h3
  · rw [count_colon_drop1 (digitChar_ne_colon _)]
    rfl
  · rw [count_colon_drop1 (digitChar_ne_colon _), count_colon_drop1 (digitChar_ne_colon _)]
    rfl
  · rw [count_colon_drop1 (digitChar_ne_colon _), count_colon_drop1 (digitChar_ne_colon _),
      count_colon_drop1 (digitChar_ne_colon _)]
    rfl
  · rw [count_colon_drop1 (digitChar_ne_colon _), count_colon_drop1 (digitChar_ne_colon _),
      count_colon_drop1 (digitChar_ne_colon _), count_colon_drop1 (digitChar_ne_colon _)]
    rfl

/-- The `"%d %b %Y %H:%M"` rendering contains exactly one colon. -/
theorem count_render {dt : PyDateTime} (hm1 : 1 ≤ dt.month) (hm2 : dt.month ≤ 12)
    (hy : dt.year < 10000) :
    List.count ':' (renderDbYHM dt) = 1 := by
  unfold renderDbYHM
  simp only [List.count_append]
  rw [count_pad2, count_pad2, count_pad2, count_monthChars hm1 hm2, count_yearChars hy]
  decide

theorem firstParse_cons_none {f : List Tok} {fs : List (List Tok)} {s : String}
    (h : strptime f s = none) : firstParse (f :: fs) s = firstParse fs s := by
  conv_lhs => unfold firstParse
  rw [h]

theorem firstParse_cons_some {f : List Tok} {fs : List (List Tok)} {s : String}
    {dt : PyDateTime} (h : strptime f s = some dt) :
    firstParse (f :: fs) s = some dt := by
  conv_lhs => unfold firstParse
  rw [h]

/-- Re-parsing the rendered `"%d %b %Y %H:%M"` string: the first UI format
(`%d %b %Y %H:%M:%S`, two colons) fails by colon count, the second
(`%d %b %Y %H:%M`) succeeds and recovers the truncated datetime. -/
theorem parse_ui_render {dt : PyDateTime} (hv : validDateTime dt = true)
    (hy : 1000 ≤ dt.year) :
    parse_ui_date (String.mk (renderDbYHM dt)) =
      some ⟨dt.year, dt.month, dt.day, dt.hour, dt.minute, 0⟩ := by
  obtain ⟨hy1, hy2, hm1, hm2, hd1, hd2, hh, hmi⟩ := validDateTime_bounds hv
  have hcount : List.count ':' (renderDbYHM dt) = 1 := count_render hm1 hm2 (by omega)
  have h1 : strptime fmtDbYHMS (String.mk (renderDbYHM dt)) = none := by
    apply strptime_count_none
    rw [show (String.mk (renderDbYHM dt)).toList = renderDbYHM dt from rfl, hcount]
    decide
  have h2 := strptime_render_DbYHM hv hy
  have hne : String.mk (renderDbYHM dt) ≠ "" := by
    intro he
    have hl : renderDbYHM dt = [] := by
      have := congrArg String.toList he
      simpa using this
    rw [hl] at hcount
    exact absurd hcount (by decide)
  unfold parse_ui_date
  rw [if_neg hne]
  unfold uiFormats
  rw [firstParse_cons_none h1, firstParse_cons_some h2]


/-- C7 counterexample: the 14-character timestamp `"09990101000000"` parses
under `%Y%m%d%H%M%S` (year 999 is a valid `datetime` year), but glibc
`strftime` renders `%Y` unpadded, so `format_datetime` yields
`"01 Jan 999 00:00"`, whose 3-digit year no UI format (all demanding the
4-digit `%Y`) can re-parse: the round trip loses the date instead of
recovering it. -/
theorem C7_counterexample_year999 :
    ("09990101000000" : String).length = 14 ∧
    strptime fmtYmdHMS "09990101000000" = some ⟨999, 1, 1, 0, 0, 0⟩ ∧
    format_datetime "09990101000000" = "01 Jan 999 00:00" ∧
    parse_ui_date "01 Jan 999 00:00" = none := by
  refine ⟨rfl, by decide, by decide, by decide⟩

/-- C7 (amended): for every 14-character timestamp that parses under
`%Y%m%d%H%M%S` to a date with a four-digit year (1000 ≤ year), formatting it
with `format_datetime` and re-parsing the result with `parse_ui_date`
recovers the same year, month, day, hour and minute, with seconds
discarded. -/
theorem C7_roundtrip_four_digit_year {s : String} {dt : PyDateTime}
    (hlen : s.length = 14) (hp : strptime fmtYmdHMS s = some dt)
    (hy : 1000 ≤ dt.year) :
    parse_ui_date (format_datetime s) =
      some ⟨dt.year, dt.month, dt.day, dt.hour, dt.minute, 0⟩ := by
  rw [format_datetime_eq hlen hp]
  exact parse_ui_render (strptime_valid hp) hy

/-- C7 witness: the round trip at the concrete timestamp
`"20251022093000"`. -/
theorem C7_witness :
    ("20251022093000" : String).length = 14 ∧
    strptime fmtYmdHMS "20251022093000" = some ⟨2025, 10, 22, 9, 30, 0⟩ ∧
    1000 ≤ (2025 : Nat) ∧
    parse_ui_date (format_datetime "20251022093000") =
      some ⟨2025, 10, 22, 9, 30, 0⟩ :=
  ⟨rfl, by decide, by decide,
    @C7_roundtrip_four_digit_year "20251022093000" ⟨2025, 10, 22, 9, 30, 0⟩
      (by decide) (by decide) (by decide)⟩

end UnifiScraper
